import Mathlib

/-!
QBarSet (src/barchart/qbarset.cpp)

A shallow embedding of the bar-set container of the charting library and the
properties of its mutators, accessors and notifications.

Conventions of the embedding:

* A `qreal` value is a rational number (every finite double is one).  The
  addition `total += y` of `QBarSet::sum` is a parameter of its embedding: it is
  instantiated with `double_add` (IEEE 754 binary64, round to nearest, ties to
  even) and with `exact_add` (exact arithmetic).
* A C++ `int` argument is an `Int`; the one sum of two caller-supplied ints
  (`index + count` in `QBarSetPrivate::remove`) is taken with 32-bit
  two's-complement wrap-around (`int_add`).  Sizes of a `QList` are ints by
  construction, so arithmetic that only counts elements of a list is exact.
* `QList<T>` is a `List T`.  A `QList` member that requires a valid index
  (`at`, `replace`, `removeAt`) returns `none` when called with an invalid one;
  `QList::insert` prepends for `i <= 0` and appends for `i >= size()`.
* Emitted signals are returned, in emission order, next to the new state.
* `QPen`, `QBrush` and `QFont` are type parameters with decidable equality
  (their `operator!=`).
-/

set_option autoImplicit false

namespace QtCommercialChart

/-- The scalar type `qreal`, idealised as exact rational numbers. -/
abbrev qreal := ℚ

/-- The point type `QPointF`: a pair of `qreal` coordinates. -/
structure QPointF where
  xp : qreal
  yp : qreal
  deriving DecidableEq, Repr

/-- Accessor `QPointF::x()`. -/
def QPointF.x (p : QPointF) : qreal := p.xp

/-- Accessor `QPointF::y()`. -/
def QPointF.y (p : QPointF) : qreal := p.yp

/-- Addition of `qreal` values over exact arithmetic; it always has a result. -/
def exact_add (a b : qreal) : Option qreal := some (a + b)

/-- The integer `e` with `2^e <= a < 2^(e+1)`, for a positive rational `a`. -/
def floorLog2 (a : ℚ) : Int :=
  if 1 ≤ a then (Nat.log2 (Int.floor a).toNat : Int)
  else if (Int.ceil a⁻¹).toNat ≤ 1 then 0
  else -((Nat.log2 ((Int.ceil a⁻¹).toNat - 1) : Int) + 1)

/-- The integer nearest to a rational, the even one of the two when it lies half way
between them. -/
def roundHalfEven (a : ℚ) : Int :=
  if a - (Int.floor a : ℚ) < 1 / 2 then Int.floor a
  else if 1 / 2 < a - (Int.floor a : ℚ) then Int.floor a + 1
  else if Int.floor a % 2 = 0 then Int.floor a
  else Int.floor a + 1

/-- Rounding of a rational to an IEEE 754 binary64 number (`double`), to nearest
with ties to even: 53 significant bits, least normal exponent -1022 (below it the
spacing stays `2^-1074`), and no result when the rounded magnitude reaches `2^1024`
(the double would be an infinity, which is not a rational). -/
def double_round (q : ℚ) : Option ℚ :=
  if q = 0 then some 0
  else if (2 : ℚ) ^ (1024 : Nat)
      ≤ (roundHalfEven (|q| / (2 : ℚ) ^ (max (floorLog2 |q|) (-1022) - 52)) : ℚ)
          * (2 : ℚ) ^ (max (floorLog2 |q|) (-1022) - 52) then none
  else if q < 0 then
    some (-((roundHalfEven (|q| / (2 : ℚ) ^ (max (floorLog2 |q|) (-1022) - 52)) : ℚ)
          * (2 : ℚ) ^ (max (floorLog2 |q|) (-1022) - 52)))
  else
    some ((roundHalfEven (|q| / (2 : ℚ) ^ (max (floorLog2 |q|) (-1022) - 52)) : ℚ)
          * (2 : ℚ) ^ (max (floorLog2 |q|) (-1022) - 52))

/-- Addition of two doubles: the exact sum rounded to a double. -/
def double_add (a b : qreal) : Option qreal := double_round (a + b)

/-- Wrap-around of a mathematical integer into the range of a 32-bit `int`. -/
def wrapInt (z : Int) : Int := (z + 2147483648) % 4294967296 - 2147483648

/-- The C++ expression `a + b` on two `int` operands. -/
def int_add (a b : Int) : Int := wrapInt (a + b)

/-- The container `QList<T>`. -/
abbrev QList (α : Type) := List α

namespace QList

variable {α : Type}

/-- Member `QList::count()` (the size, as an `int`). -/
def count (l : QList α) : Int := (l.length : Int)

/-- Member `QList::at(i)`: the item at position `i`, which must be a valid index. -/
def «at» (l : QList α) (i : Int) : Option α :=
  if 0 ≤ i ∧ i < count l then l.get? i.toNat else none

/-- Member `QList::append(value)`: inserts `value` at the end. -/
def append (l : QList α) (value : α) : QList α := l ++ [value]

/-- Member `QList::insert(i, value)`: prepends for `i <= 0`, appends for
`i >= size()`, and otherwise puts `value` in front of the item at position `i`. -/
def insert (l : QList α) (i : Int) (value : α) : QList α :=
  if i ≤ 0 then value :: l
  else if i ≥ count l then l ++ [value]
  else l.take i.toNat ++ value :: l.drop i.toNat

/-- Member `QList::removeAt(i)`: removes the item at position `i`, which must be
a valid index. -/
def removeAt (l : QList α) (i : Int) : Option (QList α) :=
  if 0 ≤ i ∧ i < count l then some (l.eraseIdx i.toNat) else none

/-- Member `QList::replace(i, value)`: overwrites the item at position `i`, which
must be a valid index. -/
def replace (l : QList α) (i : Int) (value : α) : Option (QList α) :=
  if 0 ≤ i ∧ i < count l then some (l.set i.toNat value) else none

end QList

/-- The notifications of the bar set: the signals of `QBarSet` and the two internal
signals `updatedBars` and `restructuredBars` of `QBarSetPrivate`. -/
inductive Signal where
  | nameChanged
  | penChanged
  | brushChanged
  | labelBrushChanged
  | labelFontChanged
  | valuesAdded (index count : Int)
  | valuesRemoved (index count : Int)
  | valueChanged (index : Int)
  | updatedBars
  | restructuredBars
  deriving DecidableEq, Repr

/-- The implementation object `QBarSetPrivate` (its data members). -/
structure QBarSetPrivate (QPen QBrush QFont : Type) where
  m_name : String
  m_values : QList QPointF
  m_pen : QPen
  m_brush : QBrush
  m_labelBrush : QBrush
  m_labelFont : QFont

/-- The public object `QBarSet`, which owns its implementation object. -/
structure QBarSet (QPen QBrush QFont : Type) where
  d_ptr : QBarSetPrivate QPen QBrush QFont

section Operations

variable {QPen QBrush QFont : Type}

/-- Constructor `QBarSetPrivate::QBarSetPrivate(name, parent)`: only the name is
given, every other member is default-constructed. -/
def QBarSetPrivate.new [Inhabited QPen] [Inhabited QBrush] [Inhabited QFont]
    (name : String) : QBarSetPrivate QPen QBrush QFont :=
  { m_name := name, m_values := [], m_pen := default, m_brush := default,
    m_labelBrush := default, m_labelFont := default }

/-- Constructor `QBarSet::QBarSet(name, parent)`. -/
def QBarSet.new [Inhabited QPen] [Inhabited QBrush] [Inhabited QFont]
    (name : String) : QBarSet QPen QBrush QFont :=
  { d_ptr := QBarSetPrivate.new name }

/-! ### QBarSetPrivate -/

/-- Method `QBarSetPrivate::append(QPointF value)`. -/
def QBarSetPrivate.append_QPointF (d : QBarSetPrivate QPen QBrush QFont)
    (value : QPointF) : QBarSetPrivate QPen QBrush QFont × List Signal :=
  ({ d with m_values := QList.append d.m_values value }, [Signal.restructuredBars])

/-- The loop `for (int i=0; i<values.count(); i++) m_values.append(values.at(i));`
with `n` iterations left, the counter at `i` and the member at `m`. -/
def QBarSetPrivate.append_QList_QPointF_loop (values : QList QPointF) :
    Nat → Int → QList QPointF → Option (QList QPointF)
  | 0, _, m => some m
  | n + 1, i, m =>
    match QList.«at» values i with
    | none => none
    | some v => QBarSetPrivate.append_QList_QPointF_loop values n (i + 1) (QList.append m v)

/-- Method `QBarSetPrivate::append(QList<QPointF> values)`. -/
def QBarSetPrivate.append_QList_QPointF (d : QBarSetPrivate QPen QBrush QFont)
    (values : QList QPointF) : Option (QBarSetPrivate QPen QBrush QFont × List Signal) :=
  match QBarSetPrivate.append_QList_QPointF_loop values values.length 0 d.m_values with
  | none => none
  | some m => some ({ d with m_values := m }, [Signal.restructuredBars])

/-- The loop
`for (int i=0; i<values.count(); i++) { m_values.append(QPointF(index,values.at(i))); index++; }`
with `n` iterations left, the counter at `i`, the local `index` and the member at `m`. -/
def QBarSetPrivate.append_QList_qreal_loop (values : QList qreal) :
    Nat → Int → Int → QList QPointF → Option (QList QPointF)
  | 0, _, _, m => some m
  | n + 1, i, index, m =>
    match QList.«at» values i with
    | none => none
    | some v =>
      QBarSetPrivate.append_QList_qreal_loop values n (i + 1) (index + 1)
        (QList.append m ⟨(index : qreal), v⟩)

/-- Method `QBarSetPrivate::append(QList<qreal> values)`. -/
def QBarSetPrivate.append_QList_qreal (d : QBarSetPrivate QPen QBrush QFont)
    (values : QList qreal) : Option (QBarSetPrivate QPen QBrush QFont × List Signal) :=
  let index := QList.count d.m_values
  match QBarSetPrivate.append_QList_qreal_loop values values.length 0 index d.m_values with
  | none => none
  | some m => some ({ d with m_values := m }, [Signal.restructuredBars])

/-- Method `QBarSetPrivate::insert(const int index, const qreal value)`. -/
def QBarSetPrivate.insert_qreal (d : QBarSetPrivate QPen QBrush QFont)
    (index : Int) (value : qreal) : QBarSetPrivate QPen QBrush QFont × List Signal :=
  ({ d with m_values := QList.insert d.m_values index ⟨(index : qreal), value⟩ },
    [Signal.restructuredBars])

/-- Method `QBarSetPrivate::insert(const int index, const QPointF value)`. -/
def QBarSetPrivate.insert_QPointF (d : QBarSetPrivate QPen QBrush QFont)
    (index : Int) (value : QPointF) : QBarSetPrivate QPen QBrush QFont × List Signal :=
  ({ d with m_values := QList.insert d.m_values index value }, [Signal.restructuredBars])

/-- The loop `while (c > 0) { m_values.removeAt(index); c--; }` with `c` iterations
left and the member at `m`. -/
def QBarSetPrivate.remove_loop (index : Int) : Nat → QList QPointF → Option (QList QPointF)
  | 0, m => some m
  | c + 1, m =>
    match QList.removeAt m index with
    | none => none
    | some m1 => QBarSetPrivate.remove_loop index c m1

/-- Method `QBarSetPrivate::remove(const int index, const int count)`. The local
`int c = count` makes the loop run `count` times when `count > 0` and not at all
otherwise. -/
def QBarSetPrivate.remove (d : QBarSetPrivate QPen QBrush QFont) (index count : Int) :
    Option (Bool × QBarSetPrivate QPen QBrush QFont × List Signal) :=
  if int_add index count > QList.count d.m_values then
    some (false, d, [])
  else
    match QBarSetPrivate.remove_loop index count.toNat d.m_values with
    | none => none
    | some m => some (true, { d with m_values := m }, [Signal.restructuredBars])

/-- Method `QBarSetPrivate::replace(const int index, const qreal value)`. -/
def QBarSetPrivate.replace_qreal (d : QBarSetPrivate QPen QBrush QFont)
    (index : Int) (value : qreal) : Option (QBarSetPrivate QPen QBrush QFont × List Signal) :=
  match QList.replace d.m_values index ⟨(index : qreal), value⟩ with
  | none => none
  | some m => some ({ d with m_values := m }, [Signal.updatedBars])

/-- Method `QBarSetPrivate::replace(const int index, const QPointF value)`. -/
def QBarSetPrivate.replace_QPointF (d : QBarSetPrivate QPen QBrush QFont)
    (index : Int) (value : QPointF) : Option (QBarSetPrivate QPen QBrush QFont × List Signal) :=
  match QList.replace d.m_values index value with
  | none => none
  | some m => some ({ d with m_values := m }, [Signal.updatedBars])

/-! ### QBarSet -/

/-- Method `QBarSet::setName(const QString name)`. -/
def QBarSet.setName (s : QBarSet QPen QBrush QFont) (name : String) :
    QBarSet QPen QBrush QFont × List Signal :=
  ({ d_ptr := { s.d_ptr with m_name := name } }, [Signal.nameChanged])

/-- Method `QBarSet::name()`. -/
def QBarSet.name (s : QBarSet QPen QBrush QFont) : String := s.d_ptr.m_name

/-- Method `QBarSet::append(const QPointF value)`. -/
def QBarSet.append_QPointF (s : QBarSet QPen QBrush QFont) (value : QPointF) :
    QBarSet QPen QBrush QFont × List Signal :=
  let index := QList.count s.d_ptr.m_values
  let r := s.d_ptr.append_QPointF value
  ({ d_ptr := r.1 }, r.2 ++ [Signal.valuesAdded index 1])

/-- Method `QBarSet::append(const QList<QPointF> values)`. -/
def QBarSet.append_QList_QPointF (s : QBarSet QPen QBrush QFont) (values : QList QPointF) :
    Option (QBarSet QPen QBrush QFont × List Signal) :=
  let index := QList.count s.d_ptr.m_values
  match s.d_ptr.append_QList_QPointF values with
  | none => none
  | some r => some ({ d_ptr := r.1 }, r.2 ++ [Signal.valuesAdded index (QList.count values)])

/-- Method `QBarSet::append(const qreal value)`. -/
def QBarSet.append_qreal (s : QBarSet QPen QBrush QFont) (value : qreal) :
    QBarSet QPen QBrush QFont × List Signal :=
  s.append_QPointF ⟨((QList.count s.d_ptr.m_values : Int) : qreal), value⟩

/-- Method `QBarSet::append(const QList<qreal> values)`. -/
def QBarSet.append_QList_qreal (s : QBarSet QPen QBrush QFont) (values : QList qreal) :
    Option (QBarSet QPen QBrush QFont × List Signal) :=
  let index := QList.count s.d_ptr.m_values
  match s.d_ptr.append_QList_qreal values with
  | none => none
  | some r => some ({ d_ptr := r.1 }, r.2 ++ [Signal.valuesAdded index (QList.count values)])

/-- Method `QBarSet::insert(const int index, const qreal value)`. -/
def QBarSet.insert_qreal (s : QBarSet QPen QBrush QFont) (index : Int) (value : qreal) :
    QBarSet QPen QBrush QFont × List Signal :=
  let r := s.d_ptr.insert_qreal index value
  ({ d_ptr := r.1 }, r.2 ++ [Signal.valuesAdded index 1])

/-- Method `QBarSet::insert(const int index, const QPointF value)`. -/
def QBarSet.insert_QPointF (s : QBarSet QPen QBrush QFont) (index : Int) (value : QPointF) :
    QBarSet QPen QBrush QFont × List Signal :=
  let r := s.d_ptr.insert_QPointF index value
  ({ d_ptr := r.1 }, r.2 ++ [Signal.valuesAdded index 1])

/-- Method `QBarSet::remove(const int index, const int count)`. -/
def QBarSet.remove (s : QBarSet QPen QBrush QFont) (index count : Int) :
    Option (Bool × QBarSet QPen QBrush QFont × List Signal) :=
  match s.d_ptr.remove index count with
  | none => none
  | some (success, d, sigs) =>
    if success then some (success, { d_ptr := d }, sigs ++ [Signal.valuesRemoved index count])
    else some (success, { d_ptr := d }, sigs)

/-- Method `QBarSet::replace(const int index, const qreal value)`. -/
def QBarSet.replace_qreal (s : QBarSet QPen QBrush QFont) (index : Int) (value : qreal) :
    Option (QBarSet QPen QBrush QFont × List Signal) :=
  match s.d_ptr.replace_qreal index value with
  | none => none
  | some r => some ({ d_ptr := r.1 }, r.2 ++ [Signal.valueChanged index])

/-- Method `QBarSet::replace(const int index, const QPointF value)`. -/
def QBarSet.replace_QPointF (s : QBarSet QPen QBrush QFont) (index : Int) (value : QPointF) :
    Option (QBarSet QPen QBrush QFont × List Signal) :=
  match s.d_ptr.replace_QPointF index value with
  | none => none
  | some r => some ({ d_ptr := r.1 }, r.2 ++ [Signal.valueChanged index])

/-- Method `QBarSet::at(const int index) const`. -/
def QBarSet.«at» (s : QBarSet QPen QBrush QFont) (index : Int) : Option QPointF :=
  if index < 0 ∨ index ≥ QList.count s.d_ptr.m_values then
    some ⟨(index : qreal), 0⟩
  else
    QList.«at» s.d_ptr.m_values index

/-- Method `QBarSet::operator [](const int index) const`. -/
def QBarSet.operator_subscript (s : QBarSet QPen QBrush QFont) (index : Int) :
    Option QPointF :=
  QList.«at» s.d_ptr.m_values index

/-- Method `QBarSet::count() const`. -/
def QBarSet.count (s : QBarSet QPen QBrush QFont) : Int := QList.count s.d_ptr.m_values

/-- The loop `for (int i=0; i < d_ptr->m_values.count(); i++) total += d_ptr->m_values.at(i).y();`
with `n` iterations left, the counter at `i` and the accumulator at `total`; `add`
is the addition of `qreal`. -/
def QBarSet.sum_loop (add : qreal → qreal → Option qreal) (m : QList QPointF) :
    Nat → Int → qreal → Option qreal
  | 0, _, total => some total
  | n + 1, i, total =>
    match QList.«at» m i with
    | none => none
    | some p =>
      match add total p.y with
      | none => none
      | some t => QBarSet.sum_loop add m n (i + 1) t

/-- Method `QBarSet::sum() const`, with the addition of `qreal` as the parameter
`add`: `double_add` for the doubles of the code, `exact_add` for exact arithmetic. -/
def QBarSet.sum_with (add : qreal → qreal → Option qreal) (s : QBarSet QPen QBrush QFont) :
    Option qreal :=
  QBarSet.sum_loop add s.d_ptr.m_values s.d_ptr.m_values.length 0 0

/-- Method `QBarSet::sum() const` over exact arithmetic: `sum_with` at `exact_add`. -/
def QBarSet.sum (s : QBarSet QPen QBrush QFont) : Option qreal :=
  s.sum_with exact_add

/-- Method `QBarSet::setPen(const QPen &pen)`. -/
def QBarSet.setPen [DecidableEq QPen] (s : QBarSet QPen QBrush QFont) (pen : QPen) :
    QBarSet QPen QBrush QFont × List Signal :=
  if s.d_ptr.m_pen ≠ pen then
    ({ d_ptr := { s.d_ptr with m_pen := pen } }, [Signal.updatedBars, Signal.penChanged])
  else (s, [])

/-- Method `QBarSet::pen() const`. -/
def QBarSet.pen (s : QBarSet QPen QBrush QFont) : QPen := s.d_ptr.m_pen

/-- Method `QBarSet::setBrush(const QBrush &brush)`. -/
def QBarSet.setBrush [DecidableEq QBrush] (s : QBarSet QPen QBrush QFont) (brush : QBrush) :
    QBarSet QPen QBrush QFont × List Signal :=
  if s.d_ptr.m_brush ≠ brush then
    ({ d_ptr := { s.d_ptr with m_brush := brush } }, [Signal.updatedBars, Signal.brushChanged])
  else (s, [])

/-- Method `QBarSet::brush() const`. -/
def QBarSet.brush (s : QBarSet QPen QBrush QFont) : QBrush := s.d_ptr.m_brush

/-- Method `QBarSet::setLabelBrush(const QBrush &brush)`. -/
def QBarSet.setLabelBrush [DecidableEq QBrush] (s : QBarSet QPen QBrush QFont)
    (brush : QBrush) : QBarSet QPen QBrush QFont × List Signal :=
  if s.d_ptr.m_labelBrush ≠ brush then
    ({ d_ptr := { s.d_ptr with m_labelBrush := brush } },
      [Signal.updatedBars, Signal.labelBrushChanged])
  else (s, [])

/-- Method `QBarSet::labelBrush() const`. -/
def QBarSet.labelBrush (s : QBarSet QPen QBrush QFont) : QBrush := s.d_ptr.m_labelBrush

/-- Method `QBarSet::setLabelFont(const QFont &font)`. -/
def QBarSet.setLabelFont [DecidableEq QFont] (s : QBarSet QPen QBrush QFont) (font : QFont) :
    QBarSet QPen QBrush QFont × List Signal :=
  if s.d_ptr.m_labelFont ≠ font then
    ({ d_ptr := { s.d_ptr with m_labelFont := font } },
      [Signal.updatedBars, Signal.labelFontChanged])
  else (s, [])

/-- Method `QBarSet::labelFont() const`. -/
def QBarSet.labelFont (s : QBarSet QPen QBrush QFont) : QFont := s.d_ptr.m_labelFont

end Operations

/-- A bar set over natural-number stand-ins for pen, brush and font, holding the
given points. -/
def sampleSet (values : QList QPointF) : QBarSet Nat Nat Nat :=
  { d_ptr := { m_name := "set", m_values := values, m_pen := 0, m_brush := 0,
               m_labelBrush := 0, m_labelFont := 0 } }

/-- The points that scalars become when they are numbered consecutively from
`index`: the k-th scalar `y` becomes `(index + k, y)`. -/
def autoNumbered : Int → List qreal → List QPointF
  | _, [] => []
  | index, y :: ys => ⟨(index : qreal), y⟩ :: autoNumbered (index + 1) ys

/-- The set obtained from a newly constructed (empty) one by `append(3.0)` followed
by `append(5.0)`. -/
def twoScalarSet : QBarSet Nat Nat Nat :=
  (((QBarSet.new "set" : QBarSet Nat Nat Nat).append_qreal 3).1.append_qreal 5).1

/-- Whether a signal is a `valuesAdded` notification. -/
def Signal.isValuesAdded : Signal → Bool
  | Signal.valuesAdded _ _ => true
  | _ => false

/-- One-by-one scalar append: `append(y)` is called for each scalar of the list in
order. The result is the set afterwards and all signals emitted, in order. -/
def appendEach_qreal {QPen QBrush QFont : Type} (s : QBarSet QPen QBrush QFont) :
    List qreal → QBarSet QPen QBrush QFont × List Signal
  | [] => (s, [])
  | y :: ys =>
    ((appendEach_qreal (s.append_qreal y).1 ys).1,
      (s.append_qreal y).2 ++ (appendEach_qreal (s.append_qreal y).1 ys).2)

/-- One-by-one point append: `append(p)` is called for each point of the list in
order. The result is the set afterwards and all signals emitted, in order. -/
def appendEach_QPointF {QPen QBrush QFont : Type} (s : QBarSet QPen QBrush QFont) :
    List QPointF → QBarSet QPen QBrush QFont × List Signal
  | [] => (s, [])
  | p :: ps =>
    ((appendEach_QPointF (s.append_QPointF p).1 ps).1,
      (s.append_QPointF p).2 ++ (appendEach_QPointF (s.append_QPointF p).1 ps).2)

/-- The signals of `n` single appends to a set that has `c` values at the start:
for each appended element `restructuredBars` followed by `valuesAdded(position, 1)`. -/
def singleAppendSignals : Int → Nat → List Signal
  | _, 0 => []
  | c, n + 1 =>
    Signal.restructuredBars :: Signal.valuesAdded c 1 :: singleAppendSignals (c + 1) n

/-! ## Auxiliary facts about the list operations -/

theorem wrapInt_le_of_nonneg (z : Int) (hz : 0 ≤ z) : wrapInt z ≤ z := by
  unfold wrapInt
  omega

theorem wrapInt_eq_self (z : Int) (h0 : -2147483648 ≤ z) (h1 : z ≤ 2147483647) :
    wrapInt z = z := by
  unfold wrapInt
  omega

theorem QList.at_eq_get? {α : Type} (l : QList α) (i : Int) (h0 : 0 ≤ i)
    (h1 : i < QList.count l) : QList.«at» l i = l.get? i.toNat := by
  simp [QList.«at», h0, h1]

theorem QList.at_of_nat {α : Type} (l : QList α) (n : Nat) :
    QList.«at» l (n : Int) = l.get? n := by
  unfold QList.«at» QList.count
  by_cases h : n < l.length
  · simp [h]
  · simp [h]
    omega

theorem QBarSetPrivate.remove_loop_eq (index : Nat) :
    ∀ (c : Nat) (m : QList QPointF), index + c ≤ m.length →
      QBarSetPrivate.remove_loop (index : Int) c m = some (m.take index ++ m.drop (index + c))
  | 0, m, _ => by simp [QBarSetPrivate.remove_loop]
  | c + 1, m, h => by
    have hlt : index < m.length := by omega
    have hr : QList.removeAt m (index : Int) = some (m.eraseIdx index) := by
      simp [QList.removeAt, QList.count, hlt]
    have hlen : index + c ≤ (m.eraseIdx index).length := by
      rw [List.length_eraseIdx]
      simp [hlt]
      omega
    rw [QBarSetPrivate.remove_loop, hr]
    simp only []
    rw [QBarSetPrivate.remove_loop_eq index c _ hlen]
    congr 1
    rw [List.eraseIdx_eq_take_drop_succ]
    have e1 : (List.take index m ++ List.drop (index + 1) m).take index = m.take index := by
      rw [List.take_append_of_le_length (by simp; omega)]
      simp [List.take_take]
    have e2 : (List.take index m ++ List.drop (index + 1) m).drop (index + c)
        = m.drop (index + (c + 1)) := by
      rw [List.drop_append_eq_append_drop]
      have hl : (List.take index m).length = index := by simp; omega
      rw [hl, List.drop_eq_nil_of_le (by omega)]
      simp [List.drop_drop]
      congr 1
      omega
    rw [e1, e2]

theorem QBarSet.sum_loop_eq_foldlM (add : qreal → qreal → Option qreal) :
    ∀ (rest pre : List QPointF) (total : qreal),
      QBarSet.sum_loop add (pre ++ rest) rest.length (pre.length : Int) total
        = rest.foldlM (fun t p => add t p.y) total
  | [], pre, total => by
    rw [List.length_nil, QBarSet.sum_loop]
    rfl
  | p :: rest, pre, total => by
    have hat : QList.«at» (pre ++ p :: rest) (pre.length : Int) = some p := by
      rw [QList.at_of_nat, List.get?_eq_getElem?, List.getElem?_append_right (le_refl _)]
      simp
    rw [List.length_cons, QBarSet.sum_loop, hat, List.foldlM_cons]
    simp only []
    cases hadd : add total p.y with
    | none => rfl
    | some t =>
      have ih := QBarSet.sum_loop_eq_foldlM add rest (pre ++ [p]) t
      have hl : ((pre ++ [p]).length : Int) = (pre.length : Int) + 1 := by simp
      rw [hl, List.append_assoc, List.singleton_append] at ih
      simp only []
      rw [ih]
      rfl

theorem QList.foldlM_exact_add : ∀ (l : List QPointF) (total : qreal),
    l.foldlM (fun t p => exact_add t p.y) total = some (total + (l.map QPointF.y).sum)
  | [], total => by simp
  | p :: l, total => by
    rw [List.foldlM_cons]
    show l.foldlM (fun t p => exact_add t p.y) (total + p.y) = _
    rw [QList.foldlM_exact_add l (total + p.y), List.map_cons, List.sum_cons, add_assoc]

theorem QBarSet.sum_loop_eq :
    ∀ (rest pre : List QPointF) (total : qreal),
      QBarSet.sum_loop exact_add (pre ++ rest) rest.length (pre.length : Int) total
        = some (total + (rest.map QPointF.y).sum) := by
  intro rest pre total
  rw [QBarSet.sum_loop_eq_foldlM, QList.foldlM_exact_add]

theorem QBarSet.sum_with_eq_foldlM {QPen QBrush QFont : Type}
    (add : qreal → qreal → Option qreal) (s : QBarSet QPen QBrush QFont) :
    s.sum_with add = s.d_ptr.m_values.foldlM (fun t p => add t p.y) 0 := by
  have h := QBarSet.sum_loop_eq_foldlM add s.d_ptr.m_values [] 0
  simp only [List.nil_append, List.length_nil, Nat.cast_zero] at h
  exact h

theorem QList.insert_natCast {α : Type} (l : QList α) (n : Nat) (hn : n ≤ l.length) (v : α) :
    QList.insert l (n : Int) v = l.take n ++ v :: l.drop n := by
  unfold QList.insert QList.count
  by_cases h0 : (n : Int) ≤ 0
  · have : n = 0 := by omega
    subst this
    simp
  · rw [if_neg h0]
    by_cases h1 : (n : Int) ≥ (l.length : Int)
    · have : n = l.length := by omega
      subst this
      simp
    · rw [if_neg h1, Int.toNat_ofNat]

theorem QBarSet.at_inside_nat {QPen QBrush QFont : Type} (s : QBarSet QPen QBrush QFont)
    (n : Nat) (h : n < s.d_ptr.m_values.length) :
    s.«at» (n : Int) = s.d_ptr.m_values[n]? := by
  have hin : ¬ ((n : Int) < 0 ∨ (n : Int) ≥ QList.count s.d_ptr.m_values) := by
    unfold QList.count
    omega
  rw [QBarSet.«at», if_neg hin, QList.at_of_nat, List.get?_eq_getElem?]

theorem QBarSet.at_outside {QPen QBrush QFont : Type} (s : QBarSet QPen QBrush QFont)
    (j : Int) (h : j < 0 ∨ j ≥ s.count) : s.«at» j = some ⟨(j : qreal), 0⟩ := by
  have h2 : j < 0 ∨ j ≥ QList.count s.d_ptr.m_values := h
  rw [QBarSet.«at», if_pos h2]

theorem QList.getElem?_insert_self {α : Type} (l : List α) (n : Nat) (hn : n ≤ l.length)
    (v : α) : (l.take n ++ v :: l.drop n)[n]? = some v := by
  have hl : (l.take n).length = n := by simp; omega
  rw [List.getElem?_append_right (by omega), hl]
  simp

theorem QList.getElem?_insert_after {α : Type} (l : List α) (n j : Nat) (hn : n ≤ j)
    (hj : j < l.length) (v : α) : (l.take n ++ v :: l.drop n)[j + 1]? = l[j]? := by
  have hl : (l.take n).length = n := by simp; omega
  rw [List.getElem?_append_right (by omega), hl]
  have e : j + 1 - n = (j - n) + 1 := by omega
  rw [e, List.getElem?_cons_succ, List.getElem?_drop]
  congr 1
  omega

theorem QList.getElem?_insert_before {α : Type} (l : List α) (n j : Nat) (hj : j < n)
    (hn : n ≤ l.length) (v : α) : (l.take n ++ v :: l.drop n)[j]? = l[j]? := by
  have hl : (l.take n).length = n := by simp; omega
  rw [List.getElem?_append_left (by omega), List.getElem?_take_of_lt hj]

theorem QBarSet.insert_QPointF_spec {QPen QBrush QFont : Type}
    (s : QBarSet QPen QBrush QFont) (index : Int) (v : QPointF)
    (h0 : 0 ≤ index) (h1 : index ≤ s.count) :
    (s.insert_QPointF index v).1.«at» index = some v ∧
    (∀ j : Int, index ≤ j → j < s.count →
        (s.insert_QPointF index v).1.«at» (j + 1) = s.«at» j) ∧
    (∀ j : Int, 0 ≤ j → j < index → (s.insert_QPointF index v).1.«at» j = s.«at» j) ∧
    (s.insert_QPointF index v).1.count = s.count + 1 ∧
    (s.insert_QPointF index v).2 = [Signal.restructuredBars, Signal.valuesAdded index 1] := by
  have hcount : s.count = (s.d_ptr.m_values.length : Int) := rfl
  rw [hcount] at h1
  obtain ⟨n, rfl⟩ := Int.eq_ofNat_of_zero_le h0
  have hn : n ≤ s.d_ptr.m_values.length := by omega
  have hvals : (s.insert_QPointF (n : Int) v).1.d_ptr.m_values
      = s.d_ptr.m_values.take n ++ v :: s.d_ptr.m_values.drop n :=
    QList.insert_natCast s.d_ptr.m_values n hn v
  have hlen : (s.insert_QPointF (n : Int) v).1.d_ptr.m_values.length
      = s.d_ptr.m_values.length + 1 := by
    rw [hvals]
    simp
    omega
  refine ⟨?_, ?_, ?_, ?_, rfl⟩
  · rw [QBarSet.at_inside_nat _ n (by omega), hvals]
    exact QList.getElem?_insert_self _ n hn v
  · intro j hj1 hj2
    rw [hcount] at hj2
    obtain ⟨k, rfl⟩ := Int.eq_ofNat_of_zero_le (le_trans h0 hj1)
    have hk1 : n ≤ k := by omega
    have hk2 : k < s.d_ptr.m_values.length := by omega
    have e : ((k : Int) + 1) = ((k + 1 : Nat) : Int) := by simp
    rw [e, QBarSet.at_inside_nat _ (k + 1) (by omega), QBarSet.at_inside_nat _ k hk2, hvals]
    exact QList.getElem?_insert_after _ n k hk1 hk2 v
  · intro j hj1 hj2
    obtain ⟨k, rfl⟩ := Int.eq_ofNat_of_zero_le hj1
    have hk1 : k < n := by omega
    rw [QBarSet.at_inside_nat _ k (by omega), QBarSet.at_inside_nat _ k (by omega), hvals]
    exact QList.getElem?_insert_before _ n k hk1 hn v
  · show ((s.insert_QPointF (n : Int) v).1.d_ptr.m_values.length : Int) = s.count + 1
    rw [hlen, hcount]
    simp

theorem QBarSetPrivate.append_QList_QPointF_loop_eq :
    ∀ (rest pre m : List QPointF),
      QBarSetPrivate.append_QList_QPointF_loop (pre ++ rest) rest.length (pre.length : Int) m
        = some (m ++ rest)
  | [], pre, m => by simp [QBarSetPrivate.append_QList_QPointF_loop]
  | p :: rest, pre, m => by
    have hat : QList.«at» (pre ++ p :: rest) (pre.length : Int) = some p := by
      rw [QList.at_of_nat, List.get?_eq_getElem?, List.getElem?_append_right (le_refl _)]
      simp
    have ih := QBarSetPrivate.append_QList_QPointF_loop_eq rest (pre ++ [p]) (QList.append m p)
    have hl : ((pre ++ [p]).length : Int) = (pre.length : Int) + 1 := by simp
    rw [hl, List.append_assoc, List.singleton_append] at ih
    rw [List.length_cons, QBarSetPrivate.append_QList_QPointF_loop, hat]
    simp only []
    rw [ih, QList.append, List.append_assoc, List.singleton_append]

theorem QBarSetPrivate.append_QList_qreal_loop_eq :
    ∀ (rest pre : List qreal) (index : Int) (m : List QPointF),
      QBarSetPrivate.append_QList_qreal_loop (pre ++ rest) rest.length (pre.length : Int) index m
        = some (m ++ autoNumbered index rest)
  | [], pre, index, m => by simp [QBarSetPrivate.append_QList_qreal_loop, autoNumbered]
  | y :: rest, pre, index, m => by
    have hat : QList.«at» (pre ++ y :: rest) (pre.length : Int) = some y := by
      rw [QList.at_of_nat, List.get?_eq_getElem?, List.getElem?_append_right (le_refl _)]
      simp
    have ih := QBarSetPrivate.append_QList_qreal_loop_eq rest (pre ++ [y]) (index + 1)
      (QList.append m ⟨(index : qreal), y⟩)
    have hl : ((pre ++ [y]).length : Int) = (pre.length : Int) + 1 := by simp
    rw [hl, List.append_assoc, List.singleton_append] at ih
    rw [List.length_cons, QBarSetPrivate.append_QList_qreal_loop, hat]
    simp only []
    rw [ih, QList.append, List.append_assoc, List.singleton_append, autoNumbered]

theorem autoNumbered_length : ∀ (index : Int) (ys : List qreal),
    (autoNumbered index ys).length = ys.length
  | _, [] => rfl
  | index, _ :: ys => by
    rw [autoNumbered, List.length_cons, List.length_cons, autoNumbered_length (index + 1) ys]

theorem autoNumbered_getElem? : ∀ (index : Int) (ys : List qreal) (i : Nat) (h : i < ys.length),
    (autoNumbered index ys)[i]? = some ⟨((index + (i : Int) : Int) : qreal), ys.get ⟨i, h⟩⟩
  | _, [], _, h => absurd h (Nat.not_lt_zero _)
  | index, y :: ys, 0, _ => by simp [autoNumbered]
  | index, y :: ys, i + 1, h => by
    have h2 : i < ys.length := Nat.lt_of_succ_lt_succ h
    rw [autoNumbered, List.getElem?_cons_succ, autoNumbered_getElem? (index + 1) ys i h2]
    simp only [List.get_eq_getElem, List.getElem_cons_succ, Nat.cast_add, Nat.cast_one]
    have e : index + 1 + (i : Int) = index + ((i : Int) + 1) := by ring
    rw [e]

theorem QBarSet.append_QList_qreal_eq {QPen QBrush QFont : Type}
    (s : QBarSet QPen QBrush QFont) (ys : QList qreal) :
    s.append_QList_qreal ys
      = some ({ d_ptr := { s.d_ptr with
                  m_values := s.d_ptr.m_values ++ autoNumbered s.count ys } },
              [Signal.restructuredBars, Signal.valuesAdded s.count (ys.length : Int)]) := by
  have h := QBarSetPrivate.append_QList_qreal_loop_eq ys [] s.count s.d_ptr.m_values
  simp only [List.nil_append, List.length_nil, Nat.cast_zero] at h
  have hd : s.d_ptr.append_QList_qreal ys
      = some ({ s.d_ptr with m_values := s.d_ptr.m_values ++ autoNumbered s.count ys },
              [Signal.restructuredBars]) := by
    rw [QBarSetPrivate.append_QList_qreal]
    simp only []
    have h' : QBarSetPrivate.append_QList_qreal_loop ys ys.length 0
        (QList.count s.d_ptr.m_values) s.d_ptr.m_values
        = some (s.d_ptr.m_values ++ autoNumbered s.count ys) := h
    rw [h']
  rw [QBarSet.append_QList_qreal]
  simp only []
  rw [hd]
  rfl

theorem QBarSet.append_QList_QPointF_eq {QPen QBrush QFont : Type}
    (s : QBarSet QPen QBrush QFont) (ps : QList QPointF) :
    s.append_QList_QPointF ps
      = some ({ d_ptr := { s.d_ptr with m_values := s.d_ptr.m_values ++ ps } },
              [Signal.restructuredBars, Signal.valuesAdded s.count (ps.length : Int)]) := by
  have h := QBarSetPrivate.append_QList_QPointF_loop_eq ps [] s.d_ptr.m_values
  simp only [List.nil_append, List.length_nil, Nat.cast_zero] at h
  have hd : s.d_ptr.append_QList_QPointF ps
      = some ({ s.d_ptr with m_values := s.d_ptr.m_values ++ ps },
              [Signal.restructuredBars]) := by
    rw [QBarSetPrivate.append_QList_QPointF, h]
  rw [QBarSet.append_QList_QPointF]
  simp only []
  rw [hd]
  rfl

theorem QBarSet.replace_QPointF_spec {QPen QBrush QFont : Type}
    (s : QBarSet QPen QBrush QFont) (index : Int) (p : QPointF)
    (h0 : 0 ≤ index) (h1 : index < s.count) :
    ∃ s1 : QBarSet QPen QBrush QFont,
      s.replace_QPointF index p
        = some (s1, [Signal.updatedBars, Signal.valueChanged index]) ∧
      s1.«at» index = some p ∧
      s1.count = s.count ∧
      (∀ j : Int, j ≠ index → s1.«at» j = s.«at» j) ∧
      s1.d_ptr = { s.d_ptr with m_values := s.d_ptr.m_values.set index.toNat p } := by
  have hcount : s.count = (s.d_ptr.m_values.length : Int) := rfl
  rw [hcount] at h1
  obtain ⟨n, rfl⟩ := Int.eq_ofNat_of_zero_le h0
  have hn : n < s.d_ptr.m_values.length := by omega
  have hin : (0 : Int) ≤ (n : Int) ∧ (n : Int) < QList.count s.d_ptr.m_values := ⟨h0, h1⟩
  have hr : QList.replace s.d_ptr.m_values (n : Int) p = some (s.d_ptr.m_values.set n p) := by
    rw [QList.replace, if_pos hin, Int.toNat_ofNat]
  have hd : s.d_ptr.replace_QPointF (n : Int) p
      = some ({ s.d_ptr with m_values := s.d_ptr.m_values.set n p },
              [Signal.updatedBars]) := by
    rw [QBarSetPrivate.replace_QPointF, hr]
  have hlen : (s.d_ptr.m_values.set n p).length = s.d_ptr.m_values.length :=
    List.length_set _ _ _
  refine ⟨{ d_ptr := { s.d_ptr with m_values := s.d_ptr.m_values.set n p } }, ?_, ?_, ?_, ?_, ?_⟩
  · rw [QBarSet.replace_QPointF, hd]
    rfl
  · rw [QBarSet.at_inside_nat _ n (by rw [hlen]; exact hn)]
    show (s.d_ptr.m_values.set n p)[n]? = some p
    simp [hn]
  · show ((s.d_ptr.m_values.set n p).length : Int) = s.count
    rw [hlen, hcount]
  · intro j hj
    by_cases hout : j < 0 ∨ j ≥ (s.d_ptr.m_values.length : Int)
    · rw [QBarSet.at_outside s j hout, QBarSet.at_outside _ j]
      show j < 0 ∨ j ≥ ((s.d_ptr.m_values.set n p).length : Int)
      rw [hlen]
      exact hout
    · have hj0 : 0 ≤ j := by omega
      obtain ⟨k, rfl⟩ := Int.eq_ofNat_of_zero_le hj0
      have hk : k < s.d_ptr.m_values.length := by omega
      have hne : n ≠ k := by
        intro e
        exact hj (by rw [e])
      rw [QBarSet.at_inside_nat s k hk, QBarSet.at_inside_nat _ k (by rw [hlen]; exact hk)]
      show (s.d_ptr.m_values.set n p)[k]? = s.d_ptr.m_values[k]?
      exact List.getElem?_set_ne hne
  · rw [Int.toNat_ofNat]

theorem QBarSet.sum_eq_sum_map {QPen QBrush QFont : Type} (s : QBarSet QPen QBrush QFont) :
    s.sum = some ((s.d_ptr.m_values.map QPointF.y).sum) := by
  have h := QBarSet.sum_loop_eq s.d_ptr.m_values [] 0
  simp only [List.nil_append, List.length_nil, Nat.cast_zero, zero_add] at h
  exact h

theorem QBarSetPrivate.remove_loop_step_in_range (index c : Nat) (m : QList QPointF)
    (h : index + c ≤ m.length) (k : Nat) (hk : k < c) :
    ∃ mk : QList QPointF,
      QBarSetPrivate.remove_loop (index : Int) k m = some mk ∧
      (0 : Int) ≤ (index : Int) ∧ (index : Int) < QList.count mk := by
  refine ⟨_, QBarSetPrivate.remove_loop_eq index k m (by omega), by omega, ?_⟩
  unfold QList.count
  rw [List.length_append, List.length_take, List.length_drop]
  omega

theorem QBarSet.remove_eq_of_in_range {QPen QBrush QFont : Type}
    (s : QBarSet QPen QBrush QFont) (i c : Nat) (h : i + c ≤ s.d_ptr.m_values.length) :
    s.remove (i : Int) (c : Int)
      = some (true,
          { d_ptr := { s.d_ptr with
              m_values := s.d_ptr.m_values.take i ++ s.d_ptr.m_values.drop (i + c) } },
          [Signal.restructuredBars, Signal.valuesRemoved (i : Int) (c : Int)]) := by
  have hguard : ¬ (int_add (i : Int) (c : Int) > QList.count s.d_ptr.m_values) := by
    have := wrapInt_le_of_nonneg ((i : Int) + (c : Int)) (by omega)
    unfold int_add QList.count
    omega
  have hloop := QBarSetPrivate.remove_loop_eq i c _ h
  have hrem : s.d_ptr.remove (i : Int) (c : Int)
      = some (true, { s.d_ptr with
          m_values := s.d_ptr.m_values.take i ++ s.d_ptr.m_values.drop (i + c) },
          [Signal.restructuredBars]) := by
    rw [QBarSetPrivate.remove, if_neg hguard, Int.toNat_ofNat, hloop]
  rw [QBarSet.remove, hrem]
  rfl

theorem autoNumbered_map_y : ∀ (index : Int) (ys : List qreal),
    (autoNumbered index ys).map QPointF.y = ys
  | _, [] => rfl
  | index, y :: ys => by
    rw [autoNumbered, List.map_cons, autoNumbered_map_y (index + 1) ys]
    rfl

theorem appendEach_qreal_state {QPen QBrush QFont : Type} :
    ∀ (ys : List qreal) (s : QBarSet QPen QBrush QFont),
      (appendEach_qreal s ys).1
        = { d_ptr := { s.d_ptr with
              m_values := s.d_ptr.m_values ++ autoNumbered s.count ys } }
  | [], s => by
    rw [appendEach_qreal, autoNumbered, List.append_nil]
  | y :: ys, s => by
    have hc : (s.append_qreal y).1.count = s.count + 1 := by
      show (((s.d_ptr.m_values ++ [_]).length : Nat) : Int) = (s.d_ptr.m_values.length : Int) + 1
      simp
    have hv : (s.append_qreal y).1.d_ptr.m_values
        = s.d_ptr.m_values ++ [⟨((s.count : Int) : qreal), y⟩] := rfl
    rw [appendEach_qreal]
    show (appendEach_qreal (s.append_qreal y).1 ys).1 = _
    rw [appendEach_qreal_state ys (s.append_qreal y).1, hc, hv, autoNumbered,
      List.append_assoc, List.singleton_append]
    rfl

theorem appendEach_qreal_signals {QPen QBrush QFont : Type} :
    ∀ (ys : List qreal) (s : QBarSet QPen QBrush QFont),
      (appendEach_qreal s ys).2.countP Signal.isValuesAdded = ys.length
  | [], s => by
    rw [appendEach_qreal]
    rfl
  | y :: ys, s => by
    rw [appendEach_qreal]
    show ((s.append_qreal y).2 ++ (appendEach_qreal (s.append_qreal y).1 ys).2).countP
      Signal.isValuesAdded = _
    rw [List.countP_append, appendEach_qreal_signals ys (s.append_qreal y).1, List.length_cons]
    have h1 : (s.append_qreal y).2.countP Signal.isValuesAdded = 1 := rfl
    rw [h1]
    omega

theorem appendEach_QPointF_state {QPen QBrush QFont : Type} :
    ∀ (ps : List QPointF) (s : QBarSet QPen QBrush QFont),
      (appendEach_QPointF s ps).1
        = { d_ptr := { s.d_ptr with m_values := s.d_ptr.m_values ++ ps } }
  | [], s => by
    rw [appendEach_QPointF, List.append_nil]
  | p :: ps, s => by
    have hv : (s.append_QPointF p).1.d_ptr.m_values = s.d_ptr.m_values ++ [p] := rfl
    rw [appendEach_QPointF]
    show (appendEach_QPointF (s.append_QPointF p).1 ps).1 = _
    rw [appendEach_QPointF_state ps (s.append_QPointF p).1, hv,
      List.append_assoc, List.singleton_append]
    rfl

theorem appendEach_QPointF_signals {QPen QBrush QFont : Type} :
    ∀ (ps : List QPointF) (s : QBarSet QPen QBrush QFont),
      (appendEach_QPointF s ps).2.countP Signal.isValuesAdded = ps.length
  | [], s => by
    rw [appendEach_QPointF]
    rfl
  | p :: ps, s => by
    rw [appendEach_QPointF]
    show ((s.append_QPointF p).2 ++ (appendEach_QPointF (s.append_QPointF p).1 ps).2).countP
      Signal.isValuesAdded = _
    rw [List.countP_append, appendEach_QPointF_signals ps (s.append_QPointF p).1,
      List.length_cons]
    have h1 : (s.append_QPointF p).2.countP Signal.isValuesAdded = 1 := rfl
    rw [h1]
    omega

theorem QList.sum_y_insert (l : List QPointF) (n : Nat) (v : QPointF) :
    ((l.take n ++ v :: l.drop n).map QPointF.y).sum = (l.map QPointF.y).sum + v.y := by
  have h : (l.map QPointF.y).sum
      = ((l.take n).map QPointF.y).sum + ((l.drop n).map QPointF.y).sum := by
    rw [← List.sum_append, ← List.map_append, List.take_append_drop]
  rw [List.map_append, List.sum_append, List.map_cons, List.sum_cons, h]
  ring

theorem QList.sum_y_remove (l : List QPointF) (i c : Nat) :
    ((l.take i ++ l.drop (i + c)).map QPointF.y).sum
      = (l.map QPointF.y).sum - (((l.drop i).take c).map QPointF.y).sum := by
  have h1 : (l.map QPointF.y).sum
      = ((l.take i).map QPointF.y).sum + ((l.drop i).map QPointF.y).sum := by
    rw [← List.sum_append, ← List.map_append, List.take_append_drop]
  have h2 : ((l.drop i).map QPointF.y).sum
      = (((l.drop i).take c).map QPointF.y).sum + ((l.drop (i + c)).map QPointF.y).sum := by
    rw [← List.sum_append, ← List.map_append, ← List.drop_drop, List.take_append_drop]
  rw [List.map_append, List.sum_append, h1, h2]
  ring

theorem QList.take_drop_insert {α : Type} (l : List α) (n : Nat) (hn : n ≤ l.length) (v : α) :
    (l.take n ++ v :: l.drop n).take n ++ (l.take n ++ v :: l.drop n).drop (n + 1) = l := by
  have hl : (l.take n).length = n := by simp; omega
  have e1 : (l.take n ++ v :: l.drop n).take n = l.take n := by
    rw [List.take_append_of_le_length (by omega), List.take_take, Nat.min_self]
  have e2 : (l.take n ++ v :: l.drop n).drop (n + 1) = l.drop n := by
    rw [List.drop_append_eq_append_drop, hl, List.drop_eq_nil_of_le (by omega)]
    simp
  rw [e1, e2, List.take_append_drop]

theorem floorLog2_1e16 : floorLog2 10000000000000000 = 53 := by
  have h : (Int.floor (10000000000000000 : ℚ)).toNat = 10000000000000000 := by
    have : Int.floor (10000000000000000 : ℚ) = 10000000000000000 := by
      rw [Int.floor_eq_iff]
      norm_num
    rw [this]
    rfl
  have hl : Nat.log2 10000000000000000 = 53 := by
    have h1 : 53 ≤ Nat.log2 10000000000000000 := (Nat.le_log2 (by norm_num)).2 (by norm_num)
    have h2 : Nat.log2 10000000000000000 < 54 := (Nat.log2_lt (by norm_num)).2 (by norm_num)
    omega
  rw [floorLog2, if_pos (by norm_num), h, hl]
  rfl

theorem floorLog2_1e16_succ : floorLog2 10000000000000001 = 53 := by
  have h : (Int.floor (10000000000000001 : ℚ)).toNat = 10000000000000001 := by
    have : Int.floor (10000000000000001 : ℚ) = 10000000000000001 := by
      rw [Int.floor_eq_iff]
      norm_num
    rw [this]
    rfl
  have hl : Nat.log2 10000000000000001 = 53 := by
    have h1 : 53 ≤ Nat.log2 10000000000000001 := (Nat.le_log2 (by norm_num)).2 (by norm_num)
    have h2 : Nat.log2 10000000000000001 < 54 := (Nat.log2_lt (by norm_num)).2 (by norm_num)
    omega
  rw [floorLog2, if_pos (by norm_num), h, hl]
  rfl

theorem roundHalfEven_5e15 : roundHalfEven 5000000000000000 = 5000000000000000 := by
  have h : Int.floor (5000000000000000 : ℚ) = 5000000000000000 := by
    rw [Int.floor_eq_iff]
    norm_num
  rw [roundHalfEven, h, if_pos (by norm_num)]

theorem roundHalfEven_5e15_half :
    roundHalfEven (10000000000000001 / 2) = 5000000000000000 := by
  have h : Int.floor (10000000000000001 / 2 : ℚ) = 5000000000000000 := by
    rw [Int.floor_eq_iff]
    norm_num
  rw [roundHalfEven, h, if_neg (by norm_num), if_neg (by norm_num), if_pos (by decide)]

theorem double_add_1e16_one : double_add 10000000000000000 1 = some 10000000000000000 := by
  have hq : (10000000000000000 + 1 : ℚ) = 10000000000000001 := by norm_num
  have habs : |(10000000000000001 : ℚ)| = 10000000000000001 := abs_of_pos (by norm_num)
  have he : max (floorLog2 10000000000000001) (-1022) - 52 = 1 := by
    rw [floorLog2_1e16_succ]
    decide
  have hdiv : (10000000000000001 : ℚ) / (2 : ℚ) ^ (1 : Int) = 10000000000000001 / 2 := by
    norm_num
  rw [double_add, hq, double_round, habs, he, hdiv, roundHalfEven_5e15_half,
    if_neg (by norm_num), if_neg (by norm_num), if_neg (by norm_num)]
  norm_num

theorem double_add_zero_1e16 : double_add 0 10000000000000000 = some 10000000000000000 := by
  have hq : (0 + 10000000000000000 : ℚ) = 10000000000000000 := by norm_num
  have habs : |(10000000000000000 : ℚ)| = 10000000000000000 := abs_of_pos (by norm_num)
  have he : max (floorLog2 10000000000000000) (-1022) - 52 = 1 := by
    rw [floorLog2_1e16]
    decide
  have hdiv : (10000000000000000 : ℚ) / (2 : ℚ) ^ (1 : Int) = 5000000000000000 := by
    norm_num
  rw [double_add, hq, double_round, habs, he, hdiv, roundHalfEven_5e15,
    if_neg (by norm_num), if_neg (by norm_num), if_neg (by norm_num)]
  norm_num

theorem double_add_1e16_neg : double_add 10000000000000000 (-10000000000000000) = some 0 := by
  have hq : (10000000000000000 + -10000000000000000 : ℚ) = 0 := by norm_num
  rw [double_add, hq, double_round, if_pos rfl]

theorem singleAppendSignals_counts : ∀ (c : Int) (n : Nat),
    (singleAppendSignals c n).countP Signal.isValuesAdded = n ∧
    (singleAppendSignals c n).count Signal.restructuredBars = n
  | _, 0 => ⟨rfl, rfl⟩
  | c, n + 1 => by
    have ih := singleAppendSignals_counts (c + 1) n
    constructor
    · rw [singleAppendSignals, List.countP_cons, List.countP_cons, ih.1]
      rfl
    · rw [singleAppendSignals, List.count_cons, List.count_cons, ih.2]
      rfl

theorem appendEach_qreal_signals_eq {QPen QBrush QFont : Type} :
    ∀ (ys : List qreal) (s : QBarSet QPen QBrush QFont),
      (appendEach_qreal s ys).2 = singleAppendSignals s.count ys.length
  | [], s => by
    rw [appendEach_qreal]
    rfl
  | y :: ys, s => by
    have hc : (s.append_qreal y).1.count = s.count + 1 := by
      show (((s.d_ptr.m_values ++ [_]).length : Nat) : Int) = (s.d_ptr.m_values.length : Int) + 1
      simp
    rw [appendEach_qreal]
    show (s.append_qreal y).2 ++ (appendEach_qreal (s.append_qreal y).1 ys).2 = _
    rw [appendEach_qreal_signals_eq ys (s.append_qreal y).1, hc, List.length_cons,
      singleAppendSignals]
    rfl

theorem appendEach_QPointF_signals_eq {QPen QBrush QFont : Type} :
    ∀ (ps : List QPointF) (s : QBarSet QPen QBrush QFont),
      (appendEach_QPointF s ps).2 = singleAppendSignals s.count ps.length
  | [], s => by
    rw [appendEach_QPointF]
    rfl
  | p :: ps, s => by
    have hc : (s.append_QPointF p).1.count = s.count + 1 := by
      show (((s.d_ptr.m_values ++ [_]).length : Nat) : Int) = (s.d_ptr.m_values.length : Int) + 1
      simp
    rw [appendEach_QPointF]
    show (s.append_QPointF p).2 ++ (appendEach_QPointF (s.append_QPointF p).1 ps).2 = _
    rw [appendEach_QPointF_signals_eq ps (s.append_QPointF p).1, hc, List.length_cons,
      singleAppendSignals]
    rfl

theorem QList.foldlM_cons_of_some {α β : Type} (f : β → α → Option β) (b t : β) (a : α)
    (l : List α) (h : f b a = some t) : List.foldlM f b (a :: l) = List.foldlM f t l := by
  rw [List.foldlM_cons, h]
  rfl

/-! ## remove -/

/-- The guard branch of `remove`: when the guard `index + count > count()` holds
for the `int` sum the code computes, `remove(index, count)` returns false, hands
back the bar set with every member as it was, and emits no signal, neither
`valuesRemoved` nor the internal `restructuredBars`. -/
theorem remove_out_of_range_returns_false {QPen QBrush QFont : Type}
    (s : QBarSet QPen QBrush QFont) (index count : Int)
    (h : int_add index count > s.count) :
    s.remove index count = some (false, s, []) := by
  have h2 : int_add index count > QList.count s.d_ptr.m_values := h
  simp [QBarSet.remove, QBarSetPrivate.remove, h2]

/-- The guard branch at work: removing three values at position 1 of a two-element
set. -/
theorem remove_out_of_range_returns_false_witness :
    int_add 1 3 > (sampleSet [⟨0, 3⟩, ⟨1, 5⟩]).count ∧
    (sampleSet [⟨0, 3⟩, ⟨1, 5⟩]).remove 1 3 = some (false, sampleSet [⟨0, 3⟩, ⟨1, 5⟩], []) :=
  ⟨by decide, remove_out_of_range_returns_false _ 1 3 (by decide)⟩

/-- C1 fails on the code. On a two-element set, `remove(2147483647, 1)` and
`remove(1, 2147483647)` ask for more values than there are, `index + count` being
2147483648 against a count of 2, but the `int` sum of the guard wraps around to
-2147483648, the guard is not taken, and the call goes on into the loop, where
`removeAt` is called outside the list; it does not return false. -/
theorem remove_guard_misses_int_overflow :
    ((2147483647 : Int) + 1 > (sampleSet [⟨0, 3⟩, ⟨1, 5⟩]).count ∧
      int_add 2147483647 1 = -2147483648 ∧
      ¬ (int_add 2147483647 1 > (sampleSet [⟨0, 3⟩, ⟨1, 5⟩]).count) ∧
      (sampleSet [⟨0, 3⟩, ⟨1, 5⟩]).remove 2147483647 1 = none ∧
      (sampleSet [⟨0, 3⟩, ⟨1, 5⟩]).remove 2147483647 1
        ≠ some (false, sampleSet [⟨0, 3⟩, ⟨1, 5⟩], [])) ∧
    ((1 : Int) + 2147483647 > (sampleSet [⟨0, 3⟩, ⟨1, 5⟩]).count ∧
      int_add 1 2147483647 = -2147483648 ∧
      ¬ (int_add 1 2147483647 > (sampleSet [⟨0, 3⟩, ⟨1, 5⟩]).count) ∧
      (sampleSet [⟨0, 3⟩, ⟨1, 5⟩]).remove 1 2147483647 = none ∧
      (sampleSet [⟨0, 3⟩, ⟨1, 5⟩]).remove 1 2147483647
        ≠ some (false, sampleSet [⟨0, 3⟩, ⟨1, 5⟩], [])) := by
  have h1 : (sampleSet [⟨0, 3⟩, ⟨1, 5⟩]).remove 2147483647 1 = none := rfl
  have h2 : (sampleSet [⟨0, 3⟩, ⟨1, 5⟩]).remove 1 2147483647 = none := rfl
  refine ⟨⟨by decide, by decide, by decide, h1, ?_⟩, ⟨by decide, by decide, by decide, h2, ?_⟩⟩
  · rw [h1]
    exact fun h => Option.noConfusion h
  · rw [h2]
    exact fun h => Option.noConfusion h

/-- C2, as stated, fails for a negative count: on a two-element set
`remove(0, -1)` passes the guard and returns true, but removes nothing, so the
count afterwards is 2 and not 2 - (-1). -/
theorem remove_negative_count_counterexample :
    ¬ (int_add 0 (-1) > (sampleSet [⟨0, 3⟩, ⟨1, 5⟩]).count) ∧
    (sampleSet [⟨0, 3⟩, ⟨1, 5⟩]).remove 0 (-1)
      = some (true, sampleSet [⟨0, 3⟩, ⟨1, 5⟩],
          [Signal.restructuredBars, Signal.valuesRemoved 0 (-1)]) ∧
    (sampleSet [⟨0, 3⟩, ⟨1, 5⟩]).count ≠ (sampleSet [⟨0, 3⟩, ⟨1, 5⟩]).count - (-1) :=
  ⟨by decide, rfl, by decide⟩

/-- C2, amended. For ints `index` and `count` with `0 <= count`,
`index + count <= count()` and `0 <= index` whenever `count > 0`,
`remove(index, count)` returns true; the new value sequence is the old one without
the `count` contiguous points that started at `index`, so `count()` has dropped by
exactly `count`; no other member changes; and the signals emitted are
`restructuredBars` followed by `valuesRemoved(index, count)`. -/
theorem remove_in_range_removes_block {QPen QBrush QFont : Type}
    (s : QBarSet QPen QBrush QFont) (index count : Int)
    (hc : 0 ≤ count) (hi : 0 < count → 0 ≤ index) (hlo : -2147483648 ≤ index)
    (h : index + count ≤ s.count) :
    ∃ removed : List QPointF,
      (removed.length : Int) = count ∧
      s.d_ptr.m_values
        = s.d_ptr.m_values.take index.toNat ++ removed
            ++ s.d_ptr.m_values.drop (index + count).toNat ∧
      s.remove index count
        = some (true,
            { d_ptr := { s.d_ptr with
                m_values := s.d_ptr.m_values.take index.toNat
                  ++ s.d_ptr.m_values.drop (index + count).toNat } },
            [Signal.restructuredBars, Signal.valuesRemoved index count]) ∧
      ((s.d_ptr.m_values.take index.toNat
          ++ s.d_ptr.m_values.drop (index + count).toNat).length : Int) = s.count - count := by
  have hcount : s.count = (s.d_ptr.m_values.length : Int) := rfl
  rw [hcount] at h
  obtain ⟨c, rfl⟩ := Int.eq_ofNat_of_zero_le hc
  by_cases hpos : 0 < (c : Int)
  · obtain ⟨i, rfl⟩ := Int.eq_ofNat_of_zero_le (hi hpos)
    have hic : i + c ≤ s.d_ptr.m_values.length := by omega
    have hguard : ¬ (int_add (i : Int) (c : Int) > QList.count s.d_ptr.m_values) := by
      have := wrapInt_le_of_nonneg ((i : Int) + (c : Int)) (by omega)
      unfold int_add QList.count
      omega
    have hsum : ((i : Int) + (c : Int)).toNat = i + c := by omega
    refine ⟨(s.d_ptr.m_values.drop i).take c, ?_, ?_, ?_, ?_⟩
    · simp
      omega
    · simp only [Int.toNat_ofNat, hsum]
      rw [List.append_assoc]
      have : List.take c (List.drop i s.d_ptr.m_values) ++ List.drop (i + c) s.d_ptr.m_values
          = List.drop i s.d_ptr.m_values := by
        rw [← List.drop_drop, List.take_append_drop]
      rw [this, List.take_append_drop]
    · have hloop := QBarSetPrivate.remove_loop_eq i c _ hic
      have hrem : s.d_ptr.remove (i : Int) (c : Int)
          = some (true, { s.d_ptr with
              m_values := s.d_ptr.m_values.take i ++ s.d_ptr.m_values.drop (i + c) },
              [Signal.restructuredBars]) := by
        rw [QBarSetPrivate.remove, if_neg hguard, Int.toNat_ofNat, hloop]
      rw [QBarSet.remove, hrem, Int.toNat_ofNat, hsum]
      rfl
    · simp only [Int.toNat_ofNat, hsum, hcount]
      simp
      omega
  · have hc0 : c = 0 := by omega
    subst hc0
    have hguard : ¬ (int_add index ((0 : Nat) : Int) > QList.count s.d_ptr.m_values) := by
      unfold int_add wrapInt QList.count
      omega
    have hsum : (index + ((0 : Nat) : Int)).toNat = index.toNat := by simp
    have hsame : s.d_ptr.m_values.take index.toNat ++ s.d_ptr.m_values.drop index.toNat
        = s.d_ptr.m_values := List.take_append_drop _ _
    refine ⟨[], rfl, ?_, ?_, ?_⟩
    · rw [hsum, List.append_nil, hsame]
    · have hrem : s.d_ptr.remove index ((0 : Nat) : Int)
          = some (true, { s.d_ptr with m_values := s.d_ptr.m_values },
              [Signal.restructuredBars]) := by
        rw [QBarSetPrivate.remove, if_neg hguard, Int.toNat_ofNat, QBarSetPrivate.remove_loop]
      rw [QBarSet.remove, hrem, hsum, hsame]
      rfl
    · rw [hsum, hsame, hcount]
      simp

/-- Witness of the amended C2: removing the middle point of a three-element set. -/
theorem remove_in_range_removes_block_witness :
    ∃ removed : List QPointF,
      (removed.length : Int) = 1 ∧
      (sampleSet [⟨0, 3⟩, ⟨1, 5⟩, ⟨2, 7⟩]).d_ptr.m_values
        = (sampleSet [⟨0, 3⟩, ⟨1, 5⟩, ⟨2, 7⟩]).d_ptr.m_values.take (1 : Int).toNat ++ removed
            ++ (sampleSet [⟨0, 3⟩, ⟨1, 5⟩, ⟨2, 7⟩]).d_ptr.m_values.drop ((1 : Int) + 1).toNat ∧
      (sampleSet [⟨0, 3⟩, ⟨1, 5⟩, ⟨2, 7⟩]).remove 1 1
        = some (true,
            { d_ptr := { (sampleSet [⟨0, 3⟩, ⟨1, 5⟩, ⟨2, 7⟩]).d_ptr with
                m_values := (sampleSet [⟨0, 3⟩, ⟨1, 5⟩, ⟨2, 7⟩]).d_ptr.m_values.take (1 : Int).toNat
                  ++ (sampleSet [⟨0, 3⟩, ⟨1, 5⟩, ⟨2, 7⟩]).d_ptr.m_values.drop
                      ((1 : Int) + 1).toNat } },
            [Signal.restructuredBars, Signal.valuesRemoved 1 1]) ∧
      (((sampleSet [⟨0, 3⟩, ⟨1, 5⟩, ⟨2, 7⟩]).d_ptr.m_values.take (1 : Int).toNat
          ++ (sampleSet [⟨0, 3⟩, ⟨1, 5⟩, ⟨2, 7⟩]).d_ptr.m_values.drop
              ((1 : Int) + 1).toNat).length : Int)
        = (sampleSet [⟨0, 3⟩, ⟨1, 5⟩, ⟨2, 7⟩]).count - 1 :=
  remove_in_range_removes_block (sampleSet [⟨0, 3⟩, ⟨1, 5⟩, ⟨2, 7⟩]) 1 1
    (by decide) (by decide) (by decide) (by decide)

/-! ## at -/

/-- C3. `at(index)` always returns a point: the stored one when
`0 <= index < count()` and the sentinel `(index, 0)` when `index < 0` or
`index >= count()`. (`at` is a const member: it is a function of the set alone and
hands back no new state.) -/
theorem at_total_with_sentinel {QPen QBrush QFont : Type}
    (s : QBarSet QPen QBrush QFont) (index : Int) :
    ∃ p : QPointF, s.«at» index = some p ∧
      (0 ≤ index → index < s.count → s.d_ptr.m_values.get? index.toNat = some p) ∧
      (index < 0 ∨ index ≥ s.count → p = ⟨(index : qreal), 0⟩) := by
  by_cases hout : index < 0 ∨ index ≥ QList.count s.d_ptr.m_values
  · refine ⟨⟨(index : qreal), 0⟩, ?_, ?_, ?_⟩
    · rw [QBarSet.«at», if_pos hout]
    · intro h0 h1
      have h1' : index < QList.count s.d_ptr.m_values := h1
      omega
    · intro _
      rfl
  · have h0 : 0 ≤ index := by omega
    have h1 : index < QList.count s.d_ptr.m_values := by omega
    have hlen : index.toNat < s.d_ptr.m_values.length := by
      unfold QList.count at h1
      omega
    refine ⟨s.d_ptr.m_values.get ⟨index.toNat, hlen⟩, ?_, ?_, ?_⟩
    · rw [QBarSet.«at», if_neg hout, QList.at_eq_get? _ _ h0 h1]
      exact List.get?_eq_get hlen
    · intro _ _
      exact List.get?_eq_get hlen
    · intro h
      exact absurd h hout

/-- C4 fails on the code: on an empty set `at(5)` returns `(5, 0)`, which is not
the point `QPointF(0, 0.0)` that the documentation of `at` promises for an index
out of bounds. -/
theorem at_out_of_bounds_returns_index_not_zero :
    (5 : Int) ≥ (sampleSet []).count ∧
    (sampleSet []).«at» 5 = some ⟨5, 0⟩ ∧
    (sampleSet []).«at» 5 ≠ some ⟨0, 0⟩ :=
  ⟨by decide, by decide, by decide⟩

/-! ## sum -/

/-- C5, as stated, fails on the doubles of the code. The y-values 1e16, 1 and
-1e16 are doubles; `sum()` adds them to 0 one after the other, `1e16 + 1` rounds
back to `1e16` (the doubles next to it are 2 apart), and the result is 0, while
the arithmetic sum of the y-components is 1. -/
theorem sum_of_doubles_differs_from_arithmetic_sum :
    (sampleSet [⟨0, 10000000000000000⟩, ⟨1, 1⟩, ⟨2, -10000000000000000⟩]).sum_with double_add
      = some 0 ∧
    (((sampleSet [⟨0, 10000000000000000⟩, ⟨1, 1⟩, ⟨2, -10000000000000000⟩]).d_ptr.m_values.map
      QPointF.y).sum) = 1 := by
  constructor
  · rw [QBarSet.sum_with_eq_foldlM]
    have e1 := QList.foldlM_cons_of_some (fun t p => double_add t (QPointF.y p)) 0
      10000000000000000 ⟨0, 10000000000000000⟩ [⟨1, 1⟩, ⟨2, -10000000000000000⟩]
      double_add_zero_1e16
    have e2 := QList.foldlM_cons_of_some (fun t p => double_add t (QPointF.y p))
      10000000000000000 10000000000000000 ⟨1, 1⟩ [⟨2, -10000000000000000⟩]
      double_add_1e16_one
    have e3 := QList.foldlM_cons_of_some (fun t p => double_add t (QPointF.y p))
      10000000000000000 0 ⟨2, -10000000000000000⟩ []
      double_add_1e16_neg
    exact e1.trans (e2.trans (e3.trans rfl))
  · simp only [sampleSet, QPointF.y, List.map_cons, List.map_nil, List.sum_cons, List.sum_nil]
    norm_num

/-- C5, amended. Whatever the addition of `qreal`, `sum()` is 0 to which the
y-coordinates of the points are added one after the other in sequence order
(x-coordinates play no part), so `sum()` of a set with no values is 0; over exact
arithmetic it is the arithmetic sum of the y-coordinates of all points. -/
theorem sum_is_sum_of_y {QPen QBrush QFont : Type}
    (add : qreal → qreal → Option qreal) (s : QBarSet QPen QBrush QFont) :
    s.sum_with add = s.d_ptr.m_values.foldlM (fun t p => add t p.y) 0 ∧
    (s.count = 0 → s.sum_with add = some 0) ∧
    s.sum = some ((s.d_ptr.m_values.map QPointF.y).sum) ∧
    (s.count = 0 → s.sum = some 0) := by
  have key : s.sum = some ((s.d_ptr.m_values.map QPointF.y).sum) := by
    have h := QBarSet.sum_loop_eq s.d_ptr.m_values [] 0
    simp only [List.nil_append, List.length_nil, Nat.cast_zero, zero_add] at h
    exact h
  have hnil : s.count = 0 → s.d_ptr.m_values = [] := by
    intro hc
    have : (s.d_ptr.m_values.length : Int) = 0 := hc
    exact List.length_eq_zero.mp (by omega)
  refine ⟨QBarSet.sum_with_eq_foldlM add s, ?_, key, ?_⟩
  · intro hc
    rw [QBarSet.sum_with_eq_foldlM, hnil hc]
    rfl
  · intro hc
    rw [key, hnil hc]
    rfl

/-- Witness of the amended C5: the empty set has no values and its sum is 0, with
doubles and over exact arithmetic. -/
theorem sum_is_sum_of_y_witness :
    (sampleSet []).count = 0 ∧ (sampleSet []).sum_with double_add = some 0 ∧
    (sampleSet []).sum = some 0 :=
  ⟨by decide, (sum_is_sum_of_y double_add (sampleSet [])).2.1 (by decide),
    (sum_is_sum_of_y double_add (sampleSet [])).2.2.2 (by decide)⟩

/-! ## insert -/

/-- C6. For `0 <= index <= count()`: after `insert(index, v)` the point at `index`
is `v`, every point that was at a position `j >= index` is at `j + 1`, every point
at a position `j < index` is where it was, `count()` has grown by exactly 1, and the
signals emitted are `restructuredBars` followed by `valuesAdded(index, 1)`. The
scalar form `insert(index, y)` is the point form with the point `(index, y)`. -/
theorem insert_shifts_later_elements {QPen QBrush QFont : Type}
    (s : QBarSet QPen QBrush QFont) (index : Int) (v : QPointF) (y : qreal)
    (h0 : 0 ≤ index) (h1 : index ≤ s.count) :
    ((s.insert_QPointF index v).1.«at» index = some v ∧
      (∀ j : Int, index ≤ j → j < s.count →
          (s.insert_QPointF index v).1.«at» (j + 1) = s.«at» j) ∧
      (∀ j : Int, 0 ≤ j → j < index → (s.insert_QPointF index v).1.«at» j = s.«at» j) ∧
      (s.insert_QPointF index v).1.count = s.count + 1 ∧
      (s.insert_QPointF index v).2 = [Signal.restructuredBars, Signal.valuesAdded index 1]) ∧
    ((s.insert_qreal index y).1.«at» index = some ⟨(index : qreal), y⟩ ∧
      (∀ j : Int, index ≤ j → j < s.count →
          (s.insert_qreal index y).1.«at» (j + 1) = s.«at» j) ∧
      (∀ j : Int, 0 ≤ j → j < index → (s.insert_qreal index y).1.«at» j = s.«at» j) ∧
      (s.insert_qreal index y).1.count = s.count + 1 ∧
      (s.insert_qreal index y).2 = [Signal.restructuredBars, Signal.valuesAdded index 1]) :=
  ⟨QBarSet.insert_QPointF_spec s index v h0 h1,
    QBarSet.insert_QPointF_spec s index ⟨(index : qreal), y⟩ h0 h1⟩

/-- Witness of C6: inserting `(9, 4)` at position 1 of the set `(0,3), (1,5)`. -/
theorem insert_shifts_later_elements_witness :
    ((sampleSet [⟨0, 3⟩, ⟨1, 5⟩]).insert_QPointF 1 ⟨9, 4⟩).1.«at» 1 = some ⟨9, 4⟩ ∧
    ((sampleSet [⟨0, 3⟩, ⟨1, 5⟩]).insert_QPointF 1 ⟨9, 4⟩).1.«at» (1 + 1)
      = (sampleSet [⟨0, 3⟩, ⟨1, 5⟩]).«at» 1 ∧
    ((sampleSet [⟨0, 3⟩, ⟨1, 5⟩]).insert_QPointF 1 ⟨9, 4⟩).1.count
      = (sampleSet [⟨0, 3⟩, ⟨1, 5⟩]).count + 1 :=
  have h := insert_shifts_later_elements (sampleSet [⟨0, 3⟩, ⟨1, 5⟩]) 1 ⟨9, 4⟩ 0
    (by decide) (by decide)
  ⟨h.1.1, h.1.2.1 1 (by decide) (by decide), h.1.2.2.2.1⟩

/-! ## append -/

/-- C7. Scalar append numbers the new points by position. With `c = count()` and
`n` scalars `ys`, `append(ys)` returns a set with `c + n` values in which, for every
`i < n`, the point at position `c + i` is `(c + i, ys[i])` and the first `c` points
are the old ones; the signals emitted are `restructuredBars` followed by the single
`valuesAdded(c, n)`. The one-scalar form `append(y)` puts `(c, y)` at position `c`,
leaves the earlier points alone, and emits `restructuredBars` followed by
`valuesAdded(c, 1)`. -/
theorem append_scalars_auto_numbers {QPen QBrush QFont : Type}
    (s : QBarSet QPen QBrush QFont) (ys : QList qreal) (y : qreal) :
    (∃ s1 : QBarSet QPen QBrush QFont,
      s.append_QList_qreal ys
        = some (s1, [Signal.restructuredBars, Signal.valuesAdded s.count (ys.length : Int)]) ∧
      s1.count = s.count + (ys.length : Int) ∧
      (∀ (i : Nat) (h : i < ys.length),
        s1.«at» (s.count + (i : Int))
          = some ⟨((s.count + (i : Int) : Int) : qreal), ys.get ⟨i, h⟩⟩) ∧
      s1.d_ptr.m_values.take s.d_ptr.m_values.length = s.d_ptr.m_values) ∧
    ((s.append_qreal y).2 = [Signal.restructuredBars, Signal.valuesAdded s.count 1] ∧
      (s.append_qreal y).1.count = s.count + 1 ∧
      (s.append_qreal y).1.«at» s.count = some ⟨((s.count : Int) : qreal), y⟩ ∧
      (s.append_qreal y).1.d_ptr.m_values.take s.d_ptr.m_values.length
        = s.d_ptr.m_values) := by
  have hcount : s.count = (s.d_ptr.m_values.length : Int) := rfl
  constructor
  · refine ⟨_, QBarSet.append_QList_qreal_eq s ys, ?_, ?_, ?_⟩
    · show ((s.d_ptr.m_values ++ autoNumbered s.count ys).length : Int) = _
      rw [List.length_append, autoNumbered_length, hcount]
      simp
    · intro i h
      have e : s.count + (i : Int) = ((s.d_ptr.m_values.length + i : Nat) : Int) := by
        rw [hcount]
        simp
      have hlt : s.d_ptr.m_values.length + i
          < (s.d_ptr.m_values ++ autoNumbered s.count ys).length := by
        rw [List.length_append, autoNumbered_length]
        omega
      rw [e, QBarSet.at_inside_nat _ _ hlt]
      show (s.d_ptr.m_values ++ autoNumbered s.count ys)[s.d_ptr.m_values.length + i]? = _
      rw [List.getElem?_append_right (by omega), Nat.add_sub_cancel_left,
        autoNumbered_getElem? s.count ys i h, ← e]
    · show (s.d_ptr.m_values ++ autoNumbered s.count ys).take s.d_ptr.m_values.length = _
      simp
  · have hv : (s.append_qreal y).1.d_ptr.m_values
        = s.d_ptr.m_values ++ [⟨((s.count : Int) : qreal), y⟩] := rfl
    refine ⟨rfl, ?_, ?_, ?_⟩
    · show ((s.append_qreal y).1.d_ptr.m_values.length : Int) = _
      rw [hv, hcount]
      simp
    · have hlt : s.d_ptr.m_values.length < (s.append_qreal y).1.d_ptr.m_values.length := by
        rw [hv]
        simp
      rw [hcount, QBarSet.at_inside_nat _ _ hlt, hv,
        List.getElem?_append_right (le_refl _)]
      simp [hcount]
    · rw [hv]
      simp

/-- C8. Point append stores the points as given. `append(ps)` returns the set
whose value sequence is the old one followed by `ps` in order, no other member
changed, and emits `restructuredBars` followed by the single
`valuesAdded(count(), n)`, `n` the length of `ps`; `append(p)` does the same for the
one point `p` with `valuesAdded(count(), 1)`. -/
theorem append_points_verbatim {QPen QBrush QFont : Type}
    (s : QBarSet QPen QBrush QFont) (ps : QList QPointF) (p : QPointF) :
    s.append_QList_QPointF ps
      = some ({ d_ptr := { s.d_ptr with m_values := s.d_ptr.m_values ++ ps } },
              [Signal.restructuredBars, Signal.valuesAdded s.count (ps.length : Int)]) ∧
    s.append_QPointF p
      = ({ d_ptr := { s.d_ptr with m_values := s.d_ptr.m_values ++ [p] } },
         [Signal.restructuredBars, Signal.valuesAdded s.count 1]) :=
  ⟨QBarSet.append_QList_QPointF_eq s ps, rfl⟩

/-! ## replace -/

/-- C9. For `0 <= index < count()`: `replace(index, p)` makes `at(index)` equal to
`p` and the scalar form `replace(index, y)` makes it equal to `(index, y)`; in both
forms `count()` is what it was, `at(j)` is what it was for every `j` other than
`index`, and the signals emitted are `updatedBars` followed by
`valueChanged(index)`. -/
theorem replace_overwrites_one_element {QPen QBrush QFont : Type}
    (s : QBarSet QPen QBrush QFont) (index : Int) (p : QPointF) (y : qreal)
    (h0 : 0 ≤ index) (h1 : index < s.count) :
    (∃ s1 : QBarSet QPen QBrush QFont,
      s.replace_QPointF index p
        = some (s1, [Signal.updatedBars, Signal.valueChanged index]) ∧
      s1.«at» index = some p ∧
      s1.count = s.count ∧
      (∀ j : Int, j ≠ index → s1.«at» j = s.«at» j)) ∧
    (∃ s2 : QBarSet QPen QBrush QFont,
      s.replace_qreal index y
        = some (s2, [Signal.updatedBars, Signal.valueChanged index]) ∧
      s2.«at» index = some ⟨(index : qreal), y⟩ ∧
      s2.count = s.count ∧
      (∀ j : Int, j ≠ index → s2.«at» j = s.«at» j)) := by
  obtain ⟨s1, e1, a1, c1, o1, _⟩ := QBarSet.replace_QPointF_spec s index p h0 h1
  obtain ⟨s2, e2, a2, c2, o2, _⟩ :=
    QBarSet.replace_QPointF_spec s index ⟨(index : qreal), y⟩ h0 h1
  exact ⟨⟨s1, e1, a1, c1, o1⟩, ⟨s2, e2, a2, c2, o2⟩⟩

/-- Witness of C9: replacing position 1 of the set `(0,3), (1,5)`. -/
theorem replace_overwrites_one_element_witness :
    (∃ s1 : QBarSet Nat Nat Nat,
      (sampleSet [⟨0, 3⟩, ⟨1, 5⟩]).replace_QPointF 1 ⟨9, 4⟩
        = some (s1, [Signal.updatedBars, Signal.valueChanged 1]) ∧
      s1.«at» 1 = some ⟨9, 4⟩ ∧
      s1.count = (sampleSet [⟨0, 3⟩, ⟨1, 5⟩]).count ∧
      (∀ j : Int, j ≠ 1 → s1.«at» j = (sampleSet [⟨0, 3⟩, ⟨1, 5⟩]).«at» j)) ∧
    (∃ s2 : QBarSet Nat Nat Nat,
      (sampleSet [⟨0, 3⟩, ⟨1, 5⟩]).replace_qreal 1 7
        = some (s2, [Signal.updatedBars, Signal.valueChanged 1]) ∧
      s2.«at» 1 = some ⟨((1 : Int) : qreal), 7⟩ ∧
      s2.count = (sampleSet [⟨0, 3⟩, ⟨1, 5⟩]).count ∧
      (∀ j : Int, j ≠ 1 → s2.«at» j = (sampleSet [⟨0, 3⟩, ⟨1, 5⟩]).«at» j)) :=
  replace_overwrites_one_element (sampleSet [⟨0, 3⟩, ⟨1, 5⟩]) 1 ⟨9, 4⟩ 7
    (by decide) (by decide)

/-! ## presentation setters -/

/-- C10. Each of `setPen`, `setBrush`, `setLabelBrush` and `setLabelFont`, called
with the current value of its attribute, returns the set unchanged and emits
nothing; called with a different value it stores that value in its attribute,
changes no other member, and emits exactly `updatedBars` followed by its own
signal (`penChanged`, `brushChanged`, `labelBrushChanged`, `labelFontChanged`). -/
theorem setters_are_equality_gated {QPen QBrush QFont : Type}
    [DecidableEq QPen] [DecidableEq QBrush] [DecidableEq QFont]
    (s : QBarSet QPen QBrush QFont) (pen : QPen) (brush : QBrush) (font : QFont) :
    ((pen = s.pen → s.setPen pen = (s, [])) ∧
      (pen ≠ s.pen → s.setPen pen
        = ({ d_ptr := { s.d_ptr with m_pen := pen } },
           [Signal.updatedBars, Signal.penChanged]))) ∧
    ((brush = s.brush → s.setBrush brush = (s, [])) ∧
      (brush ≠ s.brush → s.setBrush brush
        = ({ d_ptr := { s.d_ptr with m_brush := brush } },
           [Signal.updatedBars, Signal.brushChanged]))) ∧
    ((brush = s.labelBrush → s.setLabelBrush brush = (s, [])) ∧
      (brush ≠ s.labelBrush → s.setLabelBrush brush
        = ({ d_ptr := { s.d_ptr with m_labelBrush := brush } },
           [Signal.updatedBars, Signal.labelBrushChanged]))) ∧
    ((font = s.labelFont → s.setLabelFont font = (s, [])) ∧
      (font ≠ s.labelFont → s.setLabelFont font
        = ({ d_ptr := { s.d_ptr with m_labelFont := font } },
           [Signal.updatedBars, Signal.labelFontChanged]))) := by
  refine ⟨⟨?_, ?_⟩, ⟨?_, ?_⟩, ⟨?_, ?_⟩, ⟨?_, ?_⟩⟩
  · intro h
    have h2 : ¬ (s.d_ptr.m_pen ≠ pen) := fun hne => hne h.symm
    rw [QBarSet.setPen, if_neg h2]
  · intro h
    have h2 : s.d_ptr.m_pen ≠ pen := fun e => h e.symm
    rw [QBarSet.setPen, if_pos h2]
  · intro h
    have h2 : ¬ (s.d_ptr.m_brush ≠ brush) := fun hne => hne h.symm
    rw [QBarSet.setBrush, if_neg h2]
  · intro h
    have h2 : s.d_ptr.m_brush ≠ brush := fun e => h e.symm
    rw [QBarSet.setBrush, if_pos h2]
  · intro h
    have h2 : ¬ (s.d_ptr.m_labelBrush ≠ brush) := fun hne => hne h.symm
    rw [QBarSet.setLabelBrush, if_neg h2]
  · intro h
    have h2 : s.d_ptr.m_labelBrush ≠ brush := fun e => h e.symm
    rw [QBarSet.setLabelBrush, if_pos h2]
  · intro h
    have h2 : ¬ (s.d_ptr.m_labelFont ≠ font) := fun hne => hne h.symm
    rw [QBarSet.setLabelFont, if_neg h2]
  · intro h
    have h2 : s.d_ptr.m_labelFont ≠ font := fun e => h e.symm
    rw [QBarSet.setLabelFont, if_pos h2]

/-- Witness of C10: on a set whose pen is 0, `setPen(0)` is silent and `setPen(3)`
stores 3 and emits `updatedBars`, `penChanged`. -/
theorem setters_are_equality_gated_witness :
    (sampleSet []).setPen 0 = (sampleSet [], []) ∧
    (sampleSet []).setPen 3
      = ({ d_ptr := { (sampleSet []).d_ptr with m_pen := 3 } },
         [Signal.updatedBars, Signal.penChanged]) :=
  ⟨(setters_are_equality_gated (sampleSet []) 0 0 0).1.1 rfl,
    (setters_are_equality_gated (sampleSet []) 3 0 0).1.2 (by decide)⟩

/-! ## removal keeps the stored points -/

/-- C11. For `0 <= index`, `0 <= count` and `index + count <= count()`:
`remove(index, count)` returns true; each of the `count` calls of `removeAt(index)`
in its loop finds `index` inside the list it acts on; and the new value sequence is
the first `index` points of the old one followed by its points from position
`index + count` on, every point as it was stored. Example: from an empty set,
`append(3.0)` stores `(0, 3)`, `append(5.0)` stores `(1, 5)`, `sum()` is 8,
`remove(0, 1)` returns true and `at(0)` is then `(1, 5)`. -/
theorem remove_does_not_renumber {QPen QBrush QFont : Type}
    (s : QBarSet QPen QBrush QFont) (index count : Int) :
    (0 ≤ index → 0 ≤ count → index + count ≤ s.count →
      s.remove index count
        = some (true,
            { d_ptr := { s.d_ptr with
                m_values := s.d_ptr.m_values.take index.toNat
                  ++ s.d_ptr.m_values.drop (index + count).toNat } },
            [Signal.restructuredBars, Signal.valuesRemoved index count]) ∧
      (∀ k : Nat, k < count.toNat →
        ∃ mk : QList QPointF,
          QBarSetPrivate.remove_loop index k s.d_ptr.m_values = some mk ∧
          0 ≤ index ∧ index < QList.count mk)) ∧
    ((((QBarSet.new "set" : QBarSet Nat Nat Nat).append_qreal 3).1.d_ptr.m_values
        = [⟨0, 3⟩]) ∧
      twoScalarSet.d_ptr.m_values = [⟨0, 3⟩, ⟨1, 5⟩] ∧
      twoScalarSet.sum = some 8 ∧
      ∃ s3 : QBarSet Nat Nat Nat,
        twoScalarSet.remove 0 1
          = some (true, s3, [Signal.restructuredBars, Signal.valuesRemoved 0 1]) ∧
        s3.«at» 0 = some ⟨1, 5⟩) := by
  constructor
  · intro hi hc h
    have hcount : s.count = (s.d_ptr.m_values.length : Int) := rfl
    rw [hcount] at h
    obtain ⟨i, rfl⟩ := Int.eq_ofNat_of_zero_le hi
    obtain ⟨c, rfl⟩ := Int.eq_ofNat_of_zero_le hc
    have hic : i + c ≤ s.d_ptr.m_values.length := by omega
    have hsum : ((i : Int) + (c : Int)).toNat = i + c := by omega
    constructor
    · rw [Int.toNat_ofNat, hsum]
      exact QBarSet.remove_eq_of_in_range s i c hic
    · intro k hk
      rw [Int.toNat_ofNat] at hk
      exact QBarSetPrivate.remove_loop_step_in_range i c _ hic k hk
  · refine ⟨by decide, by decide, ?_, ?_⟩
    · rw [QBarSet.sum_eq_sum_map]
      have hv : twoScalarSet.d_ptr.m_values = [⟨0, 3⟩, ⟨1, 5⟩] := by decide
      rw [hv]
      simp [QPointF.y]
      norm_num
    · refine ⟨_, QBarSet.remove_eq_of_in_range twoScalarSet 0 1 (by decide), ?_⟩
      decide

/-- Witness of C11: removing the first value of the set built by `append(3.0)` and
`append(5.0)`. -/
theorem remove_does_not_renumber_witness :
    (0 : Int) + 1 ≤ twoScalarSet.count ∧
    twoScalarSet.remove 0 1
      = some (true,
          { d_ptr := { twoScalarSet.d_ptr with
              m_values := twoScalarSet.d_ptr.m_values.take (0 : Int).toNat
                ++ twoScalarSet.d_ptr.m_values.drop ((0 : Int) + 1).toNat } },
          [Signal.restructuredBars, Signal.valuesRemoved 0 1]) :=
  ⟨by decide,
    ((remove_does_not_renumber twoScalarSet 0 1).1 (by decide) (by decide) (by decide)).1⟩

/-! ## at and the indexed operator -/

/-- C13. For `0 <= index < count()` the indexed operator and `at(index)` return the
same point; for `index < 0` or `index >= count()` the indexed operator has no
result (its `QList::at` call is outside the list) while `at(index)` still returns a
point. -/
theorem subscript_and_at_asymmetry {QPen QBrush QFont : Type}
    (s : QBarSet QPen QBrush QFont) (index : Int) :
    (0 ≤ index → index < s.count →
      ∃ p : QPointF, s.operator_subscript index = some p ∧ s.«at» index = some p) ∧
    (index < 0 ∨ index ≥ s.count →
      s.operator_subscript index = none ∧ ∃ p : QPointF, s.«at» index = some p) := by
  constructor
  · intro h0 h1
    have hcount : s.count = (s.d_ptr.m_values.length : Int) := rfl
    rw [hcount] at h1
    obtain ⟨n, rfl⟩ := Int.eq_ofNat_of_zero_le h0
    have hn : n < s.d_ptr.m_values.length := by omega
    refine ⟨s.d_ptr.m_values.get ⟨n, hn⟩, ?_, ?_⟩
    · rw [QBarSet.operator_subscript, QList.at_of_nat]
      exact List.get?_eq_get hn
    · rw [QBarSet.at_inside_nat s n hn]
      exact List.getElem?_eq_getElem hn
  · intro h
    constructor
    · have h2 : ¬ (0 ≤ index ∧ index < QList.count s.d_ptr.m_values) := by
        have h3 : index < 0 ∨ index ≥ QList.count s.d_ptr.m_values := h
        omega
      rw [QBarSet.operator_subscript, QList.«at», if_neg h2]
    · exact ⟨_, QBarSet.at_outside s index h⟩

/-- Witness of C13: positions 1 and 2 of the set built by `append(3.0)` and
`append(5.0)`. -/
theorem subscript_and_at_asymmetry_witness :
    (∃ p : QPointF, twoScalarSet.operator_subscript 1 = some p ∧
      twoScalarSet.«at» 1 = some p) ∧
    (twoScalarSet.operator_subscript 2 = none ∧
      ∃ p : QPointF, twoScalarSet.«at» 2 = some p) :=
  ⟨(subscript_and_at_asymmetry twoScalarSet 1).1 (by decide) (by decide),
    (subscript_and_at_asymmetry twoScalarSet 2).2 (Or.inr (by decide))⟩

/-! ## setName -/

/-- C17. `setName(n)` is not guarded by a comparison: for every set and every
string `n`, also the current name, it makes `name()` equal to `n`, changes no other
member, and emits exactly one signal, `nameChanged`. -/
theorem setName_always_notifies {QPen QBrush QFont : Type}
    (s : QBarSet QPen QBrush QFont) (n : String) :
    (s.setName n).1.name = n ∧
    (s.setName n).1 = { d_ptr := { s.d_ptr with m_name := n } } ∧
    (s.setName n).2 = [Signal.nameChanged] ∧
    (s.setName s.name).2 = [Signal.nameChanged] :=
  ⟨rfl, rfl, rfl, rfl⟩

/-! ## batch append and one-by-one append -/

/-- C14, as stated, fails in its last part: between `append([3, 5])` and
`append(3)` followed by `append(5)` on an empty set, not only the number of
`valuesAdded` signals differs (1 against 2) but also the number of
`restructuredBars` signals (1 against 2), each single call emitting its own. -/
theorem single_appends_repeat_restructuredBars :
    ((sampleSet []).append_QList_qreal [3, 5]).map (fun r => r.2)
      = some [Signal.restructuredBars, Signal.valuesAdded 0 2] ∧
    (appendEach_qreal (sampleSet []) [3, 5]).2
      = [Signal.restructuredBars, Signal.valuesAdded 0 1,
         Signal.restructuredBars, Signal.valuesAdded 1 1] ∧
    List.count Signal.restructuredBars
      [Signal.restructuredBars, Signal.valuesAdded 0 2] = 1 ∧
    List.count Signal.restructuredBars
      [Signal.restructuredBars, Signal.valuesAdded 0 1,
       Signal.restructuredBars, Signal.valuesAdded 1 1] = 2 := by
  refine ⟨?_, ?_, by decide, by decide⟩
  · rw [QBarSet.append_QList_qreal_eq]
    rfl
  · rw [appendEach_qreal_signals_eq]
    rfl

/-- C14, amended. `append(ys)` for a list of scalars leaves the set in the state
that calling `append(y)` for each `y` of `ys` in order leaves it in, so the value
sequences are equal; likewise `append(ps)` for a list of points and `append(p)` for
each point. The signals differ: the batch call emits one `restructuredBars` and one
`valuesAdded(count(), n)`, the one-by-one calls emit, for each element, one
`restructuredBars` and one `valuesAdded(position, 1)`, `n` of each in all. -/
theorem batch_append_equals_single_appends {QPen QBrush QFont : Type}
    (s : QBarSet QPen QBrush QFont) (ys : QList qreal) (ps : QList QPointF) :
    (∃ (s1 : QBarSet QPen QBrush QFont) (sig : List Signal),
      s.append_QList_qreal ys = some (s1, sig) ∧
      s1.d_ptr.m_values = (appendEach_qreal s ys).1.d_ptr.m_values ∧
      s1 = (appendEach_qreal s ys).1 ∧
      sig = [Signal.restructuredBars, Signal.valuesAdded s.count (ys.length : Int)] ∧
      sig.countP Signal.isValuesAdded = 1 ∧
      (appendEach_qreal s ys).2 = singleAppendSignals s.count ys.length ∧
      (appendEach_qreal s ys).2.countP Signal.isValuesAdded = ys.length ∧
      (appendEach_qreal s ys).2.count Signal.restructuredBars = ys.length) ∧
    (∃ (s2 : QBarSet QPen QBrush QFont) (sig : List Signal),
      s.append_QList_QPointF ps = some (s2, sig) ∧
      s2.d_ptr.m_values = (appendEach_QPointF s ps).1.d_ptr.m_values ∧
      s2 = (appendEach_QPointF s ps).1 ∧
      sig = [Signal.restructuredBars, Signal.valuesAdded s.count (ps.length : Int)] ∧
      sig.countP Signal.isValuesAdded = 1 ∧
      (appendEach_QPointF s ps).2 = singleAppendSignals s.count ps.length ∧
      (appendEach_QPointF s ps).2.countP Signal.isValuesAdded = ps.length ∧
      (appendEach_QPointF s ps).2.count Signal.restructuredBars = ps.length) := by
  constructor
  · refine ⟨_, _, QBarSet.append_QList_qreal_eq s ys, ?_, ?_, rfl, rfl,
      appendEach_qreal_signals_eq ys s, ?_, ?_⟩
    · rw [appendEach_qreal_state ys s]
    · rw [appendEach_qreal_state ys s]
    · rw [appendEach_qreal_signals_eq ys s]
      exact (singleAppendSignals_counts s.count ys.length).1
    · rw [appendEach_qreal_signals_eq ys s]
      exact (singleAppendSignals_counts s.count ys.length).2
  · refine ⟨_, _, QBarSet.append_QList_QPointF_eq s ps, ?_, ?_, rfl, rfl,
      appendEach_QPointF_signals_eq ps s, ?_, ?_⟩
    · rw [appendEach_QPointF_state ps s]
    · rw [appendEach_QPointF_state ps s]
    · rw [appendEach_QPointF_signals_eq ps s]
      exact (singleAppendSignals_counts s.count ps.length).1
    · rw [appendEach_QPointF_signals_eq ps s]
      exact (singleAppendSignals_counts s.count ps.length).2

/-! ## x-coordinates after removal and insertion -/

/-- C12 fails on the code. After `append(3.0)`, `append(5.0)` and `remove(0, 1)` on
a new set, the value 5.0, added with the scalar form of `append`, sits at index 0
but `at(0)` returns it with x-coordinate 1. Likewise after `append(3.0)` and
`insert(0, 9.0)` the value 3.0 sits at index 1 and `at(1)` returns it with
x-coordinate 0. -/
theorem at_x_differs_from_index_after_remove :
    (∃ s3 : QBarSet Nat Nat Nat,
      twoScalarSet.remove 0 1
        = some (true, s3, [Signal.restructuredBars, Signal.valuesRemoved 0 1]) ∧
      s3.«at» 0 = some ⟨1, 5⟩ ∧
      (⟨1, 5⟩ : QPointF).x ≠ ((0 : Int) : qreal)) ∧
    ((((QBarSet.new "set" : QBarSet Nat Nat Nat).append_qreal 3).1.insert_qreal 0 9).1.«at» 1
        = some ⟨0, 3⟩ ∧
      (⟨0, 3⟩ : QPointF).x ≠ ((1 : Int) : qreal)) := by
  refine ⟨⟨_, QBarSet.remove_eq_of_in_range twoScalarSet 0 1 (by decide), by decide, ?_⟩,
    by decide, ?_⟩
  · show (1 : qreal) ≠ ((0 : Int) : qreal)
    norm_num
  · show (0 : qreal) ≠ ((1 : Int) : qreal)
    norm_num

/-! ## insert followed by remove -/

/-- C15. For `0 <= index <= count()` and every point `v`, `insert(index, v)`
followed by `remove(index, 1)` returns true and hands back the set with the value
sequence (and every other member) it had before the insertion; the same holds for
the scalar form `insert(index, y)`. -/
theorem insert_then_remove_restores {QPen QBrush QFont : Type}
    (s : QBarSet QPen QBrush QFont) (index : Int) (v : QPointF) (y : qreal)
    (h0 : 0 ≤ index) (h1 : index ≤ s.count) :
    (∃ s2 : QBarSet QPen QBrush QFont,
      (s.insert_QPointF index v).1.remove index 1
        = some (true, s2, [Signal.restructuredBars, Signal.valuesRemoved index 1]) ∧
      s2.d_ptr.m_values = s.d_ptr.m_values ∧ s2 = s) ∧
    (∃ s2 : QBarSet QPen QBrush QFont,
      (s.insert_qreal index y).1.remove index 1
        = some (true, s2, [Signal.restructuredBars, Signal.valuesRemoved index 1]) ∧
      s2.d_ptr.m_values = s.d_ptr.m_values ∧ s2 = s) := by
  have hcount : s.count = (s.d_ptr.m_values.length : Int) := rfl
  rw [hcount] at h1
  obtain ⟨n, rfl⟩ := Int.eq_ofNat_of_zero_le h0
  have hn : n ≤ s.d_ptr.m_values.length := by omega
  have key : ∀ w : QPointF, ∃ s2 : QBarSet QPen QBrush QFont,
      (s.insert_QPointF (n : Int) w).1.remove (n : Int) 1
        = some (true, s2, [Signal.restructuredBars, Signal.valuesRemoved (n : Int) 1]) ∧
      s2.d_ptr.m_values = s.d_ptr.m_values ∧ s2 = s := by
    intro w
    have hvals : (s.insert_QPointF (n : Int) w).1.d_ptr.m_values
        = s.d_ptr.m_values.take n ++ w :: s.d_ptr.m_values.drop n :=
      QList.insert_natCast s.d_ptr.m_values n hn w
    have hlen : n + 1 ≤ (s.insert_QPointF (n : Int) w).1.d_ptr.m_values.length := by
      rw [hvals]
      simp
      omega
    have hrem := QBarSet.remove_eq_of_in_range (s.insert_QPointF (n : Int) w).1 n 1 hlen
    have hback : (s.insert_QPointF (n : Int) w).1.d_ptr.m_values.take n
        ++ (s.insert_QPointF (n : Int) w).1.d_ptr.m_values.drop (n + 1)
        = s.d_ptr.m_values := by
      rw [hvals]
      exact QList.take_drop_insert s.d_ptr.m_values n hn w
    rw [hback] at hrem
    exact ⟨_, hrem, rfl, rfl⟩
  exact ⟨key v, key ⟨((n : Int) : qreal), y⟩⟩

/-- Witness of C15: inserting `(9, 4)` at position 1 of the set built by
`append(3.0)` and `append(5.0)`, then removing position 1. -/
theorem insert_then_remove_restores_witness :
    ∃ s2 : QBarSet Nat Nat Nat,
      (twoScalarSet.insert_QPointF 1 ⟨9, 4⟩).1.remove 1 1
        = some (true, s2, [Signal.restructuredBars, Signal.valuesRemoved 1 1]) ∧
      s2.d_ptr.m_values = twoScalarSet.d_ptr.m_values ∧ s2 = twoScalarSet :=
  (insert_then_remove_restores twoScalarSet 1 ⟨9, 4⟩ 0 (by decide) (by decide)).1

/-! ## sum under mutation -/

/-- C16. Over exact arithmetic `sum()` follows the mutations additively: after
`append(ys)` for a list of scalars it is the previous sum plus the sum of `ys`;
after `insert(index, y)` with `0 <= index <= count()` it is the previous sum plus
`y`; after `remove(index, count)` with `0 <= index`, `0 <= count` and
`index + count <= count()`, which returns true, it is the previous sum minus the sum
of the y-coordinates of the `count` points removed. -/
theorem sum_tracks_mutations {QPen QBrush QFont : Type}
    (s : QBarSet QPen QBrush QFont) (ys : QList qreal) (index count : Int) (y : qreal) :
    (∃ (t : qreal) (s1 : QBarSet QPen QBrush QFont) (sig : List Signal),
      s.sum = some t ∧ s.append_QList_qreal ys = some (s1, sig) ∧
      s1.sum = some (t + ys.sum)) ∧
    (0 ≤ index → index ≤ s.count →
      ∃ t : qreal, s.sum = some t ∧ (s.insert_qreal index y).1.sum = some (t + y)) ∧
    (0 ≤ index → 0 ≤ count → index + count ≤ s.count →
      ∃ (t : qreal) (s1 : QBarSet QPen QBrush QFont) (sig : List Signal),
        s.sum = some t ∧ s.remove index count = some (true, s1, sig) ∧
        s1.sum = some (t -
          (((s.d_ptr.m_values.drop index.toNat).take count.toNat).map QPointF.y).sum)) := by
  have hcount : s.count = (s.d_ptr.m_values.length : Int) := rfl
  refine ⟨?_, ?_, ?_⟩
  · refine ⟨_, _, _, QBarSet.sum_eq_sum_map s, QBarSet.append_QList_qreal_eq s ys, ?_⟩
    rw [QBarSet.sum_eq_sum_map]
    show some (((s.d_ptr.m_values ++ autoNumbered s.count ys).map QPointF.y).sum) = _
    rw [List.map_append, List.sum_append, autoNumbered_map_y]
  · intro h0 h1
    rw [hcount] at h1
    obtain ⟨n, rfl⟩ := Int.eq_ofNat_of_zero_le h0
    have hn : n ≤ s.d_ptr.m_values.length := by omega
    have hvals : (s.insert_qreal (n : Int) y).1.d_ptr.m_values
        = s.d_ptr.m_values.take n ++ ⟨((n : Int) : qreal), y⟩ :: s.d_ptr.m_values.drop n :=
      QList.insert_natCast s.d_ptr.m_values n hn _
    refine ⟨_, QBarSet.sum_eq_sum_map s, ?_⟩
    rw [QBarSet.sum_eq_sum_map, hvals, QList.sum_y_insert]
    rfl
  · intro h0 hc h
    rw [hcount] at h
    obtain ⟨i, rfl⟩ := Int.eq_ofNat_of_zero_le h0
    obtain ⟨c, rfl⟩ := Int.eq_ofNat_of_zero_le hc
    have hic : i + c ≤ s.d_ptr.m_values.length := by omega
    refine ⟨_, _, _, QBarSet.sum_eq_sum_map s, QBarSet.remove_eq_of_in_range s i c hic, ?_⟩
    rw [QBarSet.sum_eq_sum_map, Int.toNat_ofNat, Int.toNat_ofNat]
    show some (((s.d_ptr.m_values.take i ++ s.d_ptr.m_values.drop (i + c)).map
      QPointF.y).sum) = _
    rw [QList.sum_y_remove]

/-- Witness of C16 on the set built by `append(3.0)` and `append(5.0)`: inserting
the scalar 4 at position 1, and removing the first value. -/
theorem sum_tracks_mutations_witness :
    (∃ t : qreal, twoScalarSet.sum = some t ∧
      (twoScalarSet.insert_qreal 1 4).1.sum = some (t + 4)) ∧
    (∃ (t : qreal) (s1 : QBarSet Nat Nat Nat) (sig : List Signal),
      twoScalarSet.sum = some t ∧ twoScalarSet.remove 0 1 = some (true, s1, sig) ∧
      s1.sum = some (t -
        (((twoScalarSet.d_ptr.m_values.drop (0 : Int).toNat).take (1 : Int).toNat).map
          QPointF.y).sum)) :=
  ⟨(sum_tracks_mutations twoScalarSet [] 1 0 4).2.1 (by decide) (by decide),
    (sum_tracks_mutations twoScalarSet [] 0 1 0).2.2 (by decide) (by decide) (by decide)⟩

end QtCommercialChart
